import Mathlib

/-!
Verification development for the rust-version-sqlite ingestor
(src/rustup_manifest_ingestor.py and src/helpers/sqlite.py).

The Python source is shallowly embedded: pure functions become Lean
functions, the sqlite store becomes an explicit record of tables, and the
database phase of main becomes a function from store state to store state.
Python string truthiness is modelled explicitly, optional TOML keys become
Option values, and sqlite constraint violations become explicit failure
flags with the partially mutated state kept (which is what an exception
inside an open transaction leaves behind).
-/

/-! ## String helpers (Python `in`, regex fragments) -/

/-- Does the char list start with the pattern list (first argument)? -/
def listStartsWith : List Char → List Char → Bool
  | [], _ => true
  | _ :: _, [] => false
  | a :: as, b :: bs => a == b && listStartsWith as bs

/-- Substring search on char lists: is `sub` a contiguous substring of `l`?
Models Python `sub in s`. -/
def listHasSub (sub : List Char) : List Char → Bool
  | [] => sub.isEmpty
  | c :: rest => listStartsWith sub (c :: rest) || listHasSub sub rest

/-- Python `sub in s` on strings. -/
def containsStr (s sub : String) : Bool := listHasSub sub.toList s.toList

/-- Strip the literal pattern from the front of the list, if present. -/
def stripPre : List Char → List Char → Option (List Char)
  | [], l => some l
  | _ :: _, [] => none
  | a :: as, b :: bs => if a == b then stripPre as bs else none

/-- One position of the regex search `beta\.\d+`: does the list start with
"beta." followed by a digit? -/
def betaNumAt (l : List Char) : Bool :=
  match l with
  | 'b' :: 'e' :: 't' :: 'a' :: '.' :: d :: _ => d.isDigit
  | _ => false

/-- Python `re.search(r"beta\.\d+", s)` converted to a Bool: some position
of the list matches `beta\.\d+`. -/
def hasBetaNum : List Char → Bool
  | [] => false
  | c :: rest => betaNumAt (c :: rest) || hasBetaNum rest

/-! ## Manifest filter (filter_and_sort_manifests) -/

/-- The final value of the Python loop `for path in manifest_paths: if sub in
path: latest = path`, i.e. the last element containing `sub`. -/
def lastMatching (sub : String) (paths : List String) : Option String :=
  paths.foldl (fun acc p => if containsStr p sub then some p else acc) none

/-- The fixed set of historically duplicated version strings
(`versions_to_deduplicate` in the source; a Python set, embedded here in its
literal order). -/
def versions_to_deduplicate : List String := ["1.8.0", "1.14.0", "1.15.1", "1.49.0"]

/-- The inner loop `for version_str in versions_to_deduplicate: if version_str
in path: ...; break` — the first member of the duplicate set contained in the
path. -/
def firstDedupMatch (p : String) : Option String :=
  versions_to_deduplicate.find? (fun v => containsStr p v)

/-- One iteration of the reverse scan in filter_and_sort_manifests. The state
is (handled_duplicates, processed_manifests). -/
def filterStep (ls lb : Option String) (st : List String × List String)
    (p : String) : List String × List String :=
  if containsStr p "channel-rust-nightly.toml" then st
  else if some p == lb || some p == ls then st
  else
    match firstDedupMatch p with
    | some v =>
      if st.1.contains v then st
      else if containsStr p "beta" && !hasBetaNum p.toList then (v :: st.1, st.2)
      else (v :: st.1, st.2 ++ [p])
    | none =>
      if containsStr p "beta" && !hasBetaNum p.toList then st
      else (st.1, st.2 ++ [p])

/-- Result tuple of filter_and_sort_manifests. -/
structure FilterResult where
  tracked : List String
  stable : Option String
  beta : Option String
  nightly : Option String
  deriving Repr, DecidableEq

/-- filter_and_sort_manifests: identify the last pointer paths for the three
channels, then scan newest-to-oldest keeping versioned stable/beta manifests
(newest occurrence only for the historically duplicated versions). -/
def filter_and_sort_manifests (paths : List String) : FilterResult :=
  let ls := lastMatching "channel-rust-stable.toml" paths
  let lb := lastMatching "channel-rust-beta.toml" paths
  let ln := lastMatching "channel-rust-nightly.toml" paths
  { tracked := (paths.reverse.foldl (filterStep ls lb) ([], [])).2
    stable := ls
    beta := lb
    nightly := ln }

/-! ## Version extraction from manifest paths (get_versions_to_process regex)

Embedding of `re.search(r"channel-rust-([\d\w.-]+?)(?:-beta(?:\.\d+)?)?\.toml", path)`
followed by the beta-suffix re-append in get_versions_to_process. -/

/-- Character class `[\d\w.-]` (digits, word chars, dot, hyphen). -/
def isVChar (c : Char) : Bool := c.isAlphanum || c == '_' || c == '.' || c == '-'

/-- Match the literal `.toml` at the head, returning the consumed chars. -/
def matchDotToml (l : List Char) : Option (List Char) :=
  (stripPre ".toml".toList l).map (fun _ => ".toml".toList)

/-- After the literal `-beta` has been consumed: greedily try `\.\d+` and then
`\.toml`, falling back to `\.toml` directly.  Returns the chars consumed after
`-beta`. -/
def matchBetaNumToml (l2 : List Char) : Option (List Char) :=
  let withNum : Option (List Char) :=
    match l2 with
    | '.' :: rest =>
      let ds := rest.takeWhile Char.isDigit
      if ds.isEmpty then none
      else (matchDotToml (rest.dropWhile Char.isDigit)).map (fun t => '.' :: (ds ++ t))
    | _ => none
  match withNum with
  | some r => some r
  | none => matchDotToml l2

/-- The tail of the pattern after the lazy group: `(?:-beta(?:\.\d+)?)?\.toml`.
The optional group is greedy, so the `-beta` branch is tried first. -/
def matchAfterG1 (l : List Char) : Option (List Char) :=
  match stripPre "-beta".toList l with
  | some l2 =>
    match matchBetaNumToml l2 with
    | some t => some ("-beta".toList ++ t)
    | none => matchDotToml l
  | none => matchDotToml l

/-- Lazy expansion of the group `([\d\w.-]+?)`: grow the group one character
at a time, trying the pattern tail after each extension.  Returns
(group 1, consumed tail chars). -/
def lazyGroupMatch (acc : List Char) : List Char → Option (List Char × List Char)
  | [] => none
  | c :: rest =>
    if isVChar c then
      match matchAfterG1 rest with
      | some t => some (acc ++ [c], t)
      | none => lazyGroupMatch (acc ++ [c]) rest
    else none

/-- Attempt the whole pattern at this exact position.  Returns
(group 1, group 0). -/
def tryPatternAt (l : List Char) : Option (List Char × List Char) :=
  match stripPre "channel-rust-".toList l with
  | some rest =>
    (lazyGroupMatch [] rest).map
      (fun g => (g.1, "channel-rust-".toList ++ g.1 ++ g.2))
  | none => none

/-- `re.search`: try the pattern at each position left to right. -/
def searchPattern : List Char → Option (List Char × List Char)
  | [] => none
  | c :: rest =>
    match tryPatternAt (c :: rest) with
    | some r => some r
    | none => searchPattern rest

/-- `re.search(r"-(beta(?:\.\d+)?)", g0)`: the first `-beta` occurrence, its
group 1 being `beta` plus a greedy `\.\d+` when one follows. -/
def betaSuffixSearch : List Char → Option (List Char)
  | [] => none
  | c :: rest =>
    match stripPre "-beta".toList (c :: rest) with
    | some l2 =>
      some ("beta".toList ++
        (match l2 with
         | '.' :: r2 =>
           let ds := r2.takeWhile Char.isDigit
           if ds.isEmpty then [] else '.' :: ds
         | _ => []))
    | none => betaSuffixSearch rest

/-- The per-path version extraction of get_versions_to_process: regex search,
then re-append the beta iteration suffix when the full match contains
`-beta`. -/
def extract_path_version (path : String) : Option String :=
  (searchPattern path.toList).map (fun g =>
    let version := String.mk g.1
    if containsStr (String.mk g.2) "-beta" then
      match betaSuffixSearch g.2 with
      | some b => version ++ "-" ++ String.mk b
      | none => version
    else version)

/-! ## Diff planner (get_versions_to_process) -/

/-- Python dict update `d[k] = v`: replace in place when the key exists,
append otherwise. -/
def dictInsert (d : List (String × String)) (k v : String) :
    List (String × String) :=
  if d.any (fun kv => kv.1 == k) then
    d.map (fun kv => if kv.1 == k then (k, v) else kv)
  else d ++ [(k, v)]

/-- The collection loop of get_versions_to_process: build
`manifest_versions` (path to version dict) and `versions_to_check` (list of
extracted versions, duplicates kept). -/
def collectVersions : List String → List (String × String) → List String →
    List (String × String) × List String
  | [], mv, vc => (mv, vc)
  | p :: rest, mv, vc =>
    match extract_path_version p with
    | some v => collectVersions rest (dictInsert mv p v) (vc ++ [v])
    | none => collectVersions rest mv vc

/-- get_existing_versions: the store versions appearing in the checked list
(`SELECT version FROM rust_versions WHERE version IN (...)`). -/
def get_existing_versions (dbVersions : List String) (vlist : List String) :
    List String :=
  if vlist.isEmpty then []
  else dbVersions.filter (fun v => vlist.contains v)

/-- get_versions_to_process: drop every manifest path whose extracted version
is already present in the store. -/
def get_versions_to_process (paths : List String) (dbVersions : List String) :
    List String :=
  let c := collectVersions paths [] []
  if c.2.isEmpty then []
  else
    let existing := get_existing_versions dbVersions c.2
    (c.1.filter (fun kv => !existing.contains kv.2)).map (fun kv => kv.1)

/-! ## Release parser (parse_manifest)

The fetched and TOML-decoded manifest document is taken as input (fetching
and decoding are external collaborators); missing TOML keys are Option.none,
keys present with an empty string are some "".  Python string truthiness is
the `truthy` predicate. -/

/-- Python truthiness of an optional string value. -/
def truthy : Option String → Bool
  | none => false
  | some s => !(s == "")

/-- A `[pkg.*.target.*]` table of a manifest document. -/
structure TargetData where
  url : Option String := none
  hash : Option String := none
  xz_url : Option String := none
  xz_hash : Option String := none
  deriving Repr, DecidableEq

/-- A `[pkg.*]` table of a manifest document. -/
structure CompData where
  version : Option String := none
  git_commit_hash : Option String := none
  target : List (String × TargetData) := []
  deriving Repr, DecidableEq

/-- One entry of an `[artifacts.*.target.*]` list. -/
structure ArtefactEntry where
  url : Option String := none
  hash_sha256 : Option String := none
  deriving Repr, DecidableEq

/-- An `[artifacts.*]` table. -/
structure ArtefactData where
  target : List (String × List ArtefactEntry) := []
  deriving Repr, DecidableEq

/-- A decoded manifest document (the keys parse_manifest reads). -/
structure ManifestDoc where
  date : Option String := none
  pkg : Option (List (String × CompData)) := none
  artifacts : Option (List (String × ArtefactData)) := none
  renames : Option (List (String × String)) := none
  profiles : Option (List (String × List String)) := none
  deriving Repr, DecidableEq

/-- Target dataclass. -/
structure Target where
  name : String
  url : String
  hash : String
  deriving Repr, DecidableEq

/-- Component dataclass. -/
structure Component where
  name : String
  version : String
  rust_version : String
  git_commit : Option String
  targets : List Target
  deriving Repr, DecidableEq

/-- ArtefactType enum. -/
inductive ArtefactType where
  | installer_msi
  | installer_pkg
  | source_code
  deriving Repr, DecidableEq

/-- The enum value stored in the artefacts table. -/
def ArtefactType.val : ArtefactType → Nat
  | .installer_msi => 1
  | .installer_pkg => 2
  | .source_code => 3

/-- Artefact dataclass. -/
structure Artefact where
  type : ArtefactType
  url : String
  hash : String
  target : String
  deriving Repr, DecidableEq

/-- RustVersion dataclass (artefacts is always a list when produced by
parse_manifest, so it is embedded as a plain list). -/
structure RustVersion where
  version : String
  release_date : String
  manifest_url : String
  components : List Component
  profiles : Option (List (String × List String)) := none
  renames : Option (List (String × String)) := none
  artefacts : List Artefact := []
  latest_stable : Bool := false
  latest_beta : Bool := false
  latest_nightly : Bool := false
  deriving Repr, DecidableEq

/-- `re.match(r"([\d\w.-]+)", version_string)`: the greedy prefix of
characters in the class, required to be nonempty. -/
def extractVersionPrefix (vs : String) : Option String :=
  let t := vs.toList.takeWhile isVChar
  if t.isEmpty then none else some (String.mk t)

/-- The per-target loop: `xz_url`/`xz_hash` preferred key by key over
`url`/`hash`, the target kept only when both resulting values are truthy. -/
def parseTargets (entries : List (String × TargetData)) : List Target :=
  entries.filterMap (fun e =>
    let pkg_url : Option String := match e.2.xz_url with
      | some u => some u
      | none => e.2.url
    let pkg_hash : Option String := match e.2.xz_hash with
      | some h => some h
      | none => e.2.hash
    if truthy pkg_url && truthy pkg_hash then
      some { name := e.1, url := pkg_url.getD "", hash := pkg_hash.getD "" }
    else none)

/-- The component loop: every `pkg` entry becomes a Component unless it has
zero usable targets. -/
def parseComponents (version : String) (pkg : List (String × CompData)) :
    List Component :=
  pkg.filterMap (fun e =>
    let ts := parseTargets e.2.target
    if ts.isEmpty then none
    else some { name := e.1, version := e.2.version.getD "N/A",
                rust_version := version, git_commit := e.2.git_commit_hash,
                targets := ts })

/-- `ArtefactType[artefact_key.replace("-", "_")]`, with KeyError as none. -/
def artefactTypeOfKey (k : String) : Option ArtefactType :=
  let r := k.replace "-" "_"
  if r == "installer_msi" then some ArtefactType.installer_msi
  else if r == "installer_pkg" then some ArtefactType.installer_pkg
  else if r == "source_code" then some ArtefactType.source_code
  else none

/-- The artifacts loop: unknown artefact keys skipped, only the first list
entry per target used, entries missing a truthy url or hash skipped. -/
def parseArtefacts (arts : List (String × ArtefactData)) : List Artefact :=
  (arts.map (fun a =>
    match artefactTypeOfKey a.1 with
    | none => []
    | some ty =>
      a.2.target.filterMap (fun t =>
        match t.2 with
        | [] => none
        | info :: _ =>
          if truthy info.url && truthy info.hash_sha256 then
            some { type := ty, url := info.url.getD "",
                   hash := info.hash_sha256.getD "", target := t.1 }
          else none))).flatten

/-- parse_manifest on an already decoded document: any missing required key
(date, pkg, pkg.rustc, its version) or an unmatchable version string yields
none, mirroring the exception handlers that return None. -/
def parse_manifest (manifest_path : String) (m : ManifestDoc) :
    Option RustVersion :=
  match m.date with
  | none => none
  | some release_date =>
    match m.pkg with
    | none => none
    | some pkg =>
      match pkg.lookup "rustc" with
      | none => none
      | some rustc_cd =>
        match rustc_cd.version with
        | none => none
        | some version_string =>
          match extractVersionPrefix version_string with
          | none => none
          | some version =>
            some { version := version
                   release_date := release_date
                   manifest_url := "https://" ++ manifest_path
                   components := parseComponents version pkg
                   profiles := m.profiles
                   renames := m.renames
                   artefacts := parseArtefacts (m.artifacts.getD [])
                   latest_nightly :=
                     containsStr manifest_path "nightly" &&
                     containsStr manifest_path "channel" }

/-! ## The sqlite store (helpers/sqlite.py)

The four tables of DB_SCHEMA as lists of rows.  Constraint checks (primary
key on rust_versions.version, UNIQUE(rust_version, name) on components,
UNIQUE(url) on artefacts, the foreign keys) are performed explicitly on
insert; a violation models sqlite3.IntegrityError.  Since transaction
management is external and main catches per-release errors without a
rollback, a failing insert returns the partially mutated state together with
a failure flag. -/

/-- A rust_versions row. -/
structure VersionRow where
  version : String
  release_date : String
  latest_stable : Bool
  latest_beta : Bool
  latest_nightly : Bool
  deriving Repr, DecidableEq

/-- A components row (id is the INTEGER PRIMARY KEY rowid). -/
structure CompRow where
  id : Nat
  name : String
  version : String
  rust_version : String
  git_commit : Option String
  profile_complete : Bool
  profile_default : Bool
  profile_minimal : Bool
  deriving Repr, DecidableEq

/-- A targets row. -/
structure TargetRow where
  name : String
  url : String
  hash : String
  component_id : Nat
  deriving Repr, DecidableEq

/-- An artefacts row. -/
structure ArtefactRow where
  rust_version : String
  type : Nat
  target : String
  url : String
  hash : String
  deriving Repr, DecidableEq

/-- The store state: the four tables plus the autoincrement counter for
components. -/
structure Db where
  rust_versions : List VersionRow := []
  components : List CompRow := []
  targets : List TargetRow := []
  artefacts : List ArtefactRow := []
  next_comp_id : Nat := 0
  deriving Repr, DecidableEq

/-- Does a rust_versions row with this version exist (primary key probe)? -/
def Db.hasVersion (db : Db) (v : String) : Bool :=
  db.rust_versions.any (fun r => r.version == v)

/-- executemany of the component INSERT: rows are inserted one by one with
the UNIQUE(rust_version, name) and foreign key checks; the first violation
stops the batch, keeping the rows already inserted. -/
def insertComps (db : Db) : List Component → Db × Bool
  | [] => (db, true)
  | c :: rest =>
    if !(db.hasVersion c.rust_version) then (db, false)
    else if db.components.any
        (fun r => r.rust_version == c.rust_version && r.name == c.name) then
      (db, false)
    else
      insertComps
        { db with
          components := db.components ++
            [{ id := db.next_comp_id, name := c.name, version := c.version,
               rust_version := c.rust_version, git_commit := c.git_commit,
               profile_complete := false, profile_default := false,
               profile_minimal := false }]
          next_comp_id := db.next_comp_id + 1 }
        rest

/-- get_id_for_component: first components row with this name and
rust_version. -/
def get_id_for_component (db : Db) (name rust_version : String) : Option Nat :=
  (db.components.find?
    (fun r => r.name == name && r.rust_version == rust_version)).map
    (fun r => r.id)

/-- The target collection loop: per component, look up the id just inserted
(ValueError when absent) and gather the rows whose url and hash are truthy
(nonempty) strings. -/
def collectTargetRows (db : Db) (rust_version : String) :
    List Component → Option (List TargetRow)
  | [] => some []
  | c :: rest =>
    match get_id_for_component db c.name rust_version with
    | none => none
    | some cid =>
      match collectTargetRows db rust_version rest with
      | none => none
      | some vs =>
        some ((c.targets.filterMap (fun t =>
          if !(t.url == "") && !(t.hash == "") then
            some { name := t.name, url := t.url, hash := t.hash,
                   component_id := cid }
          else none)) ++ vs)

/-- executemany of the artefact INSERT with the UNIQUE(url) check; the
first violation stops the batch, keeping the rows already inserted. -/
def insertArts (db : Db) : List ArtefactRow → Db × Bool
  | [] => (db, true)
  | a :: rest =>
    if db.artefacts.any (fun r => r.url == a.url) then (db, false)
    else insertArts { db with artefacts := db.artefacts ++ [a] } rest

/-- Python str.split on a one-character separator, over char lists. -/
def splitOnChar (sep : Char) : List Char → List (List Char)
  | [] => [[]]
  | c :: rest =>
    if c == sep then [] :: splitOnChar sep rest
    else
      match splitOnChar sep rest with
      | [] => [[c]]
      | w :: ws => (c :: w) :: ws

/-- Python int of a digit string, over char lists (none when empty or not
all digits). -/
def charsToNat? (l : List Char) : Option Nat :=
  if l.isEmpty then none
  else if l.all (fun c => c.isDigit) then
    some (l.foldl (fun acc c => acc * 10 + (c.toNat - 48)) 0)
  else none

/-- `semver.compare(rust.version.split('-')[0], "1.32.0") >= 0`.  The base
version (the prefix before the first hyphen) must parse as
MAJOR.MINOR.PATCH; none models the ValueError that semver raises on
anything else. -/
def semverBase132 (version : String) : Option Bool :=
  match splitOnChar '.' (version.toList.takeWhile (fun c => !(c == '-'))) with
  | [a, b, c] =>
    match charsToNat? a, charsToNat? b, charsToNat? c with
    | some x, some y, some z =>
      some (x > 1 || (x == 1 && (y > 32 || (y == 32 && z ≥ 0))))
    | _, _, _ => none
  | _ => none

/-- One profile UPDATE: set the given membership column to 1 on every
component row of this rust_version whose name is in the list; unknown
profile names are skipped. -/
def applyProfileEntry (db : Db) (rust_version : String) (profile : String)
    (comps : List String) : Db :=
  if comps.isEmpty then db
  else if profile == "complete" then
    { db with components := db.components.map (fun r =>
        if r.rust_version == rust_version && comps.contains r.name then
          { r with profile_complete := true } else r) }
  else if profile == "default" then
    { db with components := db.components.map (fun r =>
        if r.rust_version == rust_version && comps.contains r.name then
          { r with profile_default := true } else r) }
  else if profile == "minimal" then
    { db with components := db.components.map (fun r =>
        if r.rust_version == rust_version && comps.contains r.name then
          { r with profile_minimal := true } else r) }
  else db

/-- Step 5 of insert_rust_version: the post-insert profile flag updates,
guarded by the semver comparison against 1.32.0. -/
def updateProfiles (db : Db) (rust : RustVersion) : Db × Bool :=
  match rust.profiles with
  | none => (db, true)
  | some profs =>
    if profs.isEmpty then (db, true)
    else
      match semverBase132 rust.version with
      | none => (db, false)
      | some ge =>
        if ge then
          (profs.foldl
            (fun d e => applyProfileEntry d rust.version e.1 e.2) db, true)
        else (db, true)

/-- The artefact value list of insert_rust_version (truthy url and hash
required). -/
def artefactRows (rust : RustVersion) : List ArtefactRow :=
  rust.artefacts.filterMap (fun a =>
    if !(a.url == "") && !(a.hash == "") then
      some { rust_version := rust.version, type := a.type.val,
             target := a.target, url := a.url, hash := a.hash }
    else none)

/-- Step 1 of insert_rust_version: the INSERT into rust_versions. -/
def addVersionRow (db : Db) (rust : RustVersion) : Db :=
  { db with rust_versions := db.rust_versions ++
    [{ version := rust.version, release_date := rust.release_date,
       latest_stable := rust.latest_stable, latest_beta := rust.latest_beta,
       latest_nightly := rust.latest_nightly }] }

/-- The target executemany (no table constraints beyond the already checked
foreign key). -/
def addTargetRows (db : Db) (trows : List TargetRow) : Db :=
  { db with targets := db.targets ++ trows }

/-- insert_rust_version: insert the rust_versions row, then the components,
then the targets, then the artefacts, then run the profile updates.  Any
constraint violation or lookup failure stops the sequence there, returning
the state containing everything inserted so far and a failure flag (the
exception propagates to main; no rollback happens there). -/
def insert_rust_version (db : Db) (rust : RustVersion) : Db × Bool :=
  if db.hasVersion rust.version then (db, false)
  else if rust.components.isEmpty then
    match insertArts (addVersionRow db rust) (artefactRows rust) with
    | (db4, false) => (db4, false)
    | (db4, true) => updateProfiles db4 rust
  else
    match insertComps (addVersionRow db rust) rust.components with
    | (db2, false) => (db2, false)
    | (db2, true) =>
      match collectTargetRows db2 rust.version rust.components with
      | none => (db2, false)
      | some trows =>
        match insertArts (addTargetRows db2 trows) (artefactRows rust) with
        | (db4, false) => (db4, false)
        | (db4, true) => updateProfiles db4 rust

/-! ## Channel flag update, nightly deletion, and the database phase of main -/

/-- `CASE WHEN version = ? THEN 1 ELSE 0 END`: comparison against a possibly
NULL parameter (`version = NULL` is never true). -/
def sqlEq (v : String) (o : Option String) : Bool :=
  match o with
  | none => false
  | some s => v == s

/-- set_rust_channel_flags: the single UPDATE that re-derives all three
channel flags on every rust_versions row. -/
def set_rust_channel_flags (db : Db) (stable beta nightly : Option String) :
    Db :=
  { db with rust_versions := db.rust_versions.map (fun r =>
      { r with latest_stable := sqlEq r.version stable
               latest_beta := sqlEq r.version beta
               latest_nightly := sqlEq r.version nightly }) }

/-- The versions of the rows the nightly DELETE removes. -/
def deadNightlyVersions (db : Db) : List String :=
  (db.rust_versions.filter (fun r => r.latest_nightly)).map
    (fun r => r.version)

/-- The ids of the component rows removed by the cascade of the nightly
DELETE. -/
def deadNightlyCompIds (db : Db) : List Nat :=
  (db.components.filter
    (fun c => (deadNightlyVersions db).contains c.rust_version)).map
    (fun c => c.id)

/-- delete_nightly: `DELETE FROM rust_versions WHERE latest_nightly = 1`,
with the ON DELETE CASCADE foreign keys removing the dependent components,
targets and artefacts. -/
def delete_nightly (db : Db) : Db :=
  { db with
    rust_versions := db.rust_versions.filter (fun r => !r.latest_nightly)
    components := db.components.filter
      (fun c => !((deadNightlyVersions db).contains c.rust_version))
    targets := db.targets.filter
      (fun t => !((deadNightlyCompIds db).contains t.component_id))
    artefacts := db.artefacts.filter
      (fun a => !((deadNightlyVersions db).contains a.rust_version)) }

/-- The duplicate-version pass of main over the parsed results: on a version
collision the earlier entry is removed from the unique list and the later
one appended. -/
def dedupLoop : List RustVersion → List String → List RustVersion →
    List RustVersion
  | [], _, unique => unique
  | rv :: rest, found, unique =>
    let unique' :=
      if found.contains rv.version then
        unique.filter (fun v => !(v.version == rv.version))
      else unique
    dedupLoop rest (rv.version :: found) (unique' ++ [rv])

/-- `unique_versions_to_insert` as computed by main. -/
def dedup_by_version (parsed : List RustVersion) : List RustVersion :=
  dedupLoop parsed [] []

/-- The insertion loop of main: per-release failures are caught and logged,
the loop continues with the next release on the partially mutated state. -/
def runInsertLoop (db : Db) : List RustVersion → Db
  | [] => db
  | rv :: rest => runInsertLoop (insert_rust_version db rv).1 rest

/-- The database phase of main on the deduplicated batch: delete the stored
nightly rows when the store is not fresh and the batch contains a parsed
nightly, insert every release of the batch, then re-assert the three channel
flags.  The result is the state the final commit makes durable. -/
def run_db_phase (is_new_db : Bool) (db : Db) (batch : List RustVersion)
    (stable beta nightly : Option String) : Db :=
  set_rust_channel_flags
    (runInsertLoop
      (if !is_new_db && (batch.find? (fun rv => rv.latest_nightly)).isSome
        then delete_nightly db else db)
      batch)
    stable beta nightly

/-- main from the parsed results onwards: an empty parse result returns
before any write, otherwise the batch is deduplicated by version and the
database phase runs. -/
def runMain (is_new_db : Bool) (db : Db) (parsed : List RustVersion)
    (stable beta nightly : Option String) : Db :=
  if parsed.isEmpty then db
  else run_db_phase is_new_db db (dedup_by_version parsed) stable beta nightly

/-! ## Lemmas about the manifest filter scan -/

/-- The handled-duplicates set only grows during the scan. -/
theorem filterStep_handled_mono (ls lb : Option String)
    (st : List String × List String) (p : String) (v : String)
    (h : v ∈ st.1) : v ∈ (filterStep ls lb st p).1 := by
  unfold filterStep
  split
  · exact h
  · split
    · exact h
    · split
      · split
        · exact h
        · split
          · exact List.mem_cons_of_mem _ h
          · exact List.mem_cons_of_mem _ h
      · split
        · exact h
        · exact h

/-- The handled-duplicates set only grows over a whole fold. -/
theorem foldl_handled_mono (ls lb : Option String) (l : List String)
    (st : List String × List String) (v : String) (h : v ∈ st.1) :
    v ∈ (l.foldl (filterStep ls lb) st).1 := by
  induction l generalizing st with
  | nil => exact h
  | cons p rest ih =>
    exact ih _ (filterStep_handled_mono ls lb st p v h)

/-- Paths already emitted stay emitted. -/
theorem filterStep_out_mono (ls lb : Option String)
    (st : List String × List String) (p : String) (x : String)
    (h : x ∈ st.2) : x ∈ (filterStep ls lb st p).2 := by
  unfold filterStep
  split
  · exact h
  · split
    · exact h
    · split
      · split
        · exact h
        · split
          · exact h
          · exact List.mem_append_left _ h
      · split
        · exact h
        · exact List.mem_append_left _ h

/-- Paths already emitted stay emitted over a whole fold. -/
theorem foldl_out_mono (ls lb : Option String) (l : List String)
    (st : List String × List String) (x : String) (h : x ∈ st.2) :
    x ∈ (l.foldl (filterStep ls lb) st).2 := by
  induction l generalizing st with
  | nil => exact h
  | cons p rest ih =>
    exact ih _ (filterStep_out_mono ls lb st p x h)

/-- A path emitted by one step is either old output or the scanned path
itself, in which case it passed the nightly, pointer-equality and
unnumbered-beta rules. -/
theorem filterStep_out_charact (ls lb : Option String)
    (st : List String × List String) (p : String) (x : String)
    (h : x ∈ (filterStep ls lb st p).2) :
    x ∈ st.2 ∨
      (x = p ∧ containsStr p "channel-rust-nightly.toml" = false ∧
        some p ≠ lb ∧ some p ≠ ls ∧
        (containsStr p "beta" && !hasBetaNum p.toList) = false) := by
  unfold filterStep at h
  split at h
  · exact Or.inl h
  · rename_i hnight
    split at h
    · exact Or.inl h
    · rename_i hptr
      simp only [Bool.or_eq_true, beq_iff_eq, not_or] at hptr
      split at h
      · split at h
        · exact Or.inl h
        · split at h
          · exact Or.inl h
          · rename_i hbeta
            rcases List.mem_append.mp h with h2 | h2
            · exact Or.inl h2
            · refine Or.inr ⟨List.mem_singleton.mp h2, ?_, hptr.1, hptr.2, ?_⟩
              · simpa using hnight
              · simpa using hbeta
      · split at h
        · exact Or.inl h
        · rename_i hbeta
          rcases List.mem_append.mp h with h2 | h2
          · exact Or.inl h2
          · refine Or.inr ⟨List.mem_singleton.mp h2, ?_, hptr.1, hptr.2, ?_⟩
            · simpa using hnight
            · simpa using hbeta

/-- Over a whole fold: every emitted path is old output or a scanned path
that passed the nightly, pointer-equality and unnumbered-beta rules. -/
theorem foldl_out_charact (ls lb : Option String) (l : List String)
    (st : List String × List String) (x : String)
    (h : x ∈ (l.foldl (filterStep ls lb) st).2) :
    x ∈ st.2 ∨
      (x ∈ l ∧ containsStr x "channel-rust-nightly.toml" = false ∧
        some x ≠ lb ∧ some x ≠ ls ∧
        (containsStr x "beta" && !hasBetaNum x.toList) = false) := by
  induction l generalizing st with
  | nil => exact Or.inl h
  | cons p rest ih =>
    rcases ih _ h with h2 | h2
    · rcases filterStep_out_charact ls lb st p x h2 with h3 | h3
      · exact Or.inl h3
      · exact Or.inr ⟨h3.1 ▸ List.mem_cons_self p rest, h3.1 ▸ h3.2.1,
          h3.1 ▸ h3.2.2.1, h3.1 ▸ h3.2.2.2.1, h3.1 ▸ h3.2.2.2.2⟩
    · exact Or.inr ⟨List.mem_cons_of_mem p h2.1, h2.2⟩

/-- After scanning a path that passes the nightly and pointer rules and whose
first duplicated-version match is v, v is in the handled set. -/
theorem filterStep_handled_after (ls lb : Option String)
    (st : List String × List String) (q : String) (v : String)
    (hq : firstDedupMatch q = some v)
    (hn : containsStr q "channel-rust-nightly.toml" = false)
    (hlb : some q ≠ lb) (hls : some q ≠ ls) :
    v ∈ (filterStep ls lb st q).1 := by
  simp only [filterStep, hq]
  split
  · rename_i hc; rw [hn] at hc; cases hc
  · split
    · rename_i hc
      simp only [Bool.or_eq_true, beq_iff_eq] at hc
      rcases hc with hc | hc
      · exact absurd hc hlb
      · exact absurd hc hls
    · split
      · rename_i hmem; exact List.mem_of_elem_eq_true hmem
      · split
        · exact List.mem_cons_self v st.1
        · exact List.mem_cons_self v st.1

/-- Scanning a path whose first duplicated-version match is already handled
emits nothing. -/
theorem filterStep_out_of_handled (ls lb : Option String)
    (st : List String × List String) (p : String) (v : String)
    (hp : firstDedupMatch p = some v) (hv : v ∈ st.1) :
    (filterStep ls lb st p).2 = st.2 := by
  simp only [filterStep, hp]
  split
  · rfl
  · split
    · rfl
    · have hc : st.1.contains v = true := List.elem_eq_true_of_mem hv
      rw [hc]
      simp

/-- Once a duplicated version is in the handled set, no later path whose
first duplicated-version match is that version is ever emitted. -/
theorem foldl_not_added_when_handled (ls lb : Option String)
    (l : List String) (st : List String × List String) (p : String)
    (v : String) (hp : firstDedupMatch p = some v) (hv : v ∈ st.1)
    (hout : p ∉ st.2) : p ∉ (l.foldl (filterStep ls lb) st).2 := by
  induction l generalizing st with
  | nil => exact hout
  | cons q rest ih =>
    refine ih _ (filterStep_handled_mono ls lb st q v hv) ?_
    intro hmem
    rcases filterStep_out_charact ls lb st q p hmem with h2 | h2
    · exact hout h2
    · rw [h2.1] at hp
      rw [filterStep_out_of_handled ls lb st q v hp hv] at hmem
      exact hout hmem

/-- A scanned path that passes every rule (not a nightly pointer, not equal
to the selected stable or beta pointer, no duplicated-version match, not an
unnumbered beta) is emitted. -/
theorem foldl_kept_clean (ls lb : Option String) (l : List String)
    (p : String)
    (hn : containsStr p "channel-rust-nightly.toml" = false)
    (hlb : some p ≠ lb) (hls : some p ≠ ls)
    (hd : firstDedupMatch p = none)
    (hbeta : (containsStr p "beta" && !hasBetaNum p.toList) = false) :
    ∀ st : List String × List String, p ∈ l →
      p ∈ (l.foldl (filterStep ls lb) st).2 := by
  induction l with
  | nil => intro st hmem; cases hmem
  | cons q rest ih =>
    intro st hmem
    rcases List.mem_cons.mp hmem with h | h
    · subst h
      rw [List.foldl_cons]
      apply foldl_out_mono
      have h1 : (some p == lb) = false := beq_eq_false_iff_ne.mpr hlb
      have h2 : (some p == ls) = false := beq_eq_false_iff_ne.mpr hls
      have hptr : (some p == lb || some p == ls) = false := by
        rw [h1, h2]; rfl
      simp [filterStep, hd, hn, hptr, hbeta]
      split
      · rename_i hcond
        exfalso
        rw [hcond.1] at hbeta
        rw [Bool.true_and, Bool.not_eq_false'] at hbeta
        have hx : hasBetaNum p.data = true := hbeta
        rw [hcond.2] at hx
        cases hx
      · simp
    · exact ih _ h

/-! ## Claim C4 -/

/-- C4 counterexample: not every channel-pointer identifier is excluded from
the tracked set.  With two stable-pointer identifiers in the input, only the
last occurrence is excluded; the earlier stable-pointer identifier survives
into the tracked output. -/
theorem C4_counterexample :
    (filter_and_sort_manifests ["dist/2019-01-01/channel-rust-stable.toml",
        "dist/2020-01-01/channel-rust-stable.toml"]).tracked =
      ["dist/2019-01-01/channel-rust-stable.toml"] ∧
    containsStr "dist/2019-01-01/channel-rust-stable.toml"
      "channel-rust-stable.toml" = true := by
  constructor
  · rfl
  · rfl

/-- C4 (amended): every identifier of the tracked output avoids the nightly
pointer name, differs from the identifier selected as the last stable
pointer, differs from the identifier selected as the last beta pointer, and
is not an unnumbered beta.  Thus every nightly-pointer identifier and the
last stable and beta pointer occurrences are excluded; earlier stable
pointer occurrences are not (see the counterexample). -/
theorem C4_amended (paths : List String) (p : String)
    (h : p ∈ (filter_and_sort_manifests paths).tracked) :
    containsStr p "channel-rust-nightly.toml" = false ∧
    some p ≠ (filter_and_sort_manifests paths).stable ∧
    some p ≠ (filter_and_sort_manifests paths).beta ∧
    (containsStr p "beta" && !hasBetaNum p.toList) = false := by
  have h2 := foldl_out_charact
    (lastMatching "channel-rust-stable.toml" paths)
    (lastMatching "channel-rust-beta.toml" paths)
    paths.reverse ([], []) p h
  rcases h2 with h2 | h2
  · cases h2
  · exact ⟨h2.2.1, h2.2.2.2.1, h2.2.2.1, h2.2.2.2.2⟩

/-- C4 witness: the amended theorem applied to a one-element input whose
identifier is in the tracked output. -/
theorem C4_witness :
    containsStr "dist/2020-01-01/channel-rust-1.43.0.toml"
      "channel-rust-nightly.toml" = false ∧
    some "dist/2020-01-01/channel-rust-1.43.0.toml" ≠
      (filter_and_sort_manifests
        ["dist/2020-01-01/channel-rust-1.43.0.toml"]).stable ∧
    some "dist/2020-01-01/channel-rust-1.43.0.toml" ≠
      (filter_and_sort_manifests
        ["dist/2020-01-01/channel-rust-1.43.0.toml"]).beta ∧
    (containsStr "dist/2020-01-01/channel-rust-1.43.0.toml" "beta" &&
      !hasBetaNum "dist/2020-01-01/channel-rust-1.43.0.toml".toList) = false :=
  C4_amended ["dist/2020-01-01/channel-rust-1.43.0.toml"]
    "dist/2020-01-01/channel-rust-1.43.0.toml" (by decide)

/-! ## Claim C8 -/

/-- C8 counterexample: an input whose two identifiers both contain the
duplicated version 1.8.0, where the newer one is a nightly pointer.  The
nightly rule skips the newer occurrence before the duplicate bookkeeping
runs, so the tracked output keeps the OLDER duplicate and not the newest,
contradicting the claim on this input. -/
theorem C8_counterexample :
    containsStr "dist/x/channel-rust-1.8.0.toml" "1.8.0" = true ∧
    containsStr "dist/1.8.0/channel-rust-nightly.toml" "1.8.0" = true ∧
    (filter_and_sort_manifests ["dist/x/channel-rust-1.8.0.toml",
        "dist/1.8.0/channel-rust-nightly.toml"]).tracked =
      ["dist/x/channel-rust-1.8.0.toml"] ∧
    "dist/1.8.0/channel-rust-nightly.toml" ∉
      (filter_and_sort_manifests ["dist/x/channel-rust-1.8.0.toml",
        "dist/1.8.0/channel-rust-nightly.toml"]).tracked := by
  refine ⟨rfl, rfl, rfl, ?_⟩
  decide

/-- C8 (amended): an older duplicate is dropped whenever some newer
identifier with the same first duplicated-version match reaches the
duplicate bookkeeping, i.e. is itself neither a nightly pointer nor the
identifier selected as the last stable or beta pointer; and on the plain
two-duplicate input of the specification the tracked output is exactly the
newer occurrence. -/
theorem C8_amended (pre mid post : List String) (p q v : String)
    (hp : firstDedupMatch p = some v) (hq : firstDedupMatch q = some v)
    (hpq : p ≠ q) (hpmid : p ∉ mid) (hppost : p ∉ post)
    (hn : containsStr q "channel-rust-nightly.toml" = false)
    (hqls : some q ≠
      (filter_and_sort_manifests (pre ++ p :: mid ++ q :: post)).stable)
    (hqlb : some q ≠
      (filter_and_sort_manifests (pre ++ p :: mid ++ q :: post)).beta) :
    p ∉ (filter_and_sort_manifests (pre ++ p :: mid ++ q :: post)).tracked ∧
    (filter_and_sort_manifests ["dist/x/channel-rust-1.8.0.toml",
        "dist/y/channel-rust-1.8.0.toml"]).tracked =
      ["dist/y/channel-rust-1.8.0.toml"] := by
  refine ⟨?_, rfl⟩
  have key : ∀ ls lb : Option String, some q ≠ lb → some q ≠ ls →
      p ∉ ((pre ++ p :: mid ++ q :: post).reverse.foldl
        (filterStep ls lb) ([], [])).2 := by
    intro ls lb hlb hls
    rw [show (pre ++ p :: mid ++ q :: post).reverse =
        post.reverse ++ ([q] ++ (mid.reverse ++ (p :: pre.reverse))) from by
      simp [List.reverse_append]]
    rw [List.foldl_append, List.foldl_append, List.foldl_append]
    set st1 := (post.reverse.foldl (filterStep ls lb) ([], []))
    have hout1 : p ∉ st1.2 := by
      intro hm
      rcases foldl_out_charact ls lb post.reverse ([], []) p hm with h2 | h2
      · cases h2
      · exact hppost (List.mem_reverse.mp h2.1)
    have hst2 : List.foldl (filterStep ls lb) st1 [q] = filterStep ls lb st1 q := rfl
    rw [hst2]
    set st2 := filterStep ls lb st1 q
    have hv2 : v ∈ st2.1 :=
      filterStep_handled_after ls lb st1 q v hq hn hlb hls
    have hout2 : p ∉ st2.2 := by
      intro hm
      rcases filterStep_out_charact ls lb st1 q p hm with h2 | h2
      · exact hout1 h2
      · exact hpq h2.1
    set st3 := mid.reverse.foldl (filterStep ls lb) st2
    have hv3 : v ∈ st3.1 := foldl_handled_mono ls lb mid.reverse st2 v hv2
    have hout3 : p ∉ st3.2 := by
      intro hm
      rcases foldl_out_charact ls lb mid.reverse st2 p hm with h2 | h2
      · exact hout2 h2
      · exact hpmid (List.mem_reverse.mp h2.1)
    exact foldl_not_added_when_handled ls lb (p :: pre.reverse) st3 p v
      hp hv3 hout3
  exact key _ _ hqlb hqls

/-- C8 witness: the amended theorem applied with empty surrounding segments
to the two plain duplicates of version 1.8.0. -/
theorem C8_witness :
    "dist/x/channel-rust-1.8.0.toml" ∉
      (filter_and_sort_manifests (([] : List String) ++
        "dist/x/channel-rust-1.8.0.toml" :: ([] : List String) ++
        "dist/y/channel-rust-1.8.0.toml" :: ([] : List String))).tracked ∧
    (filter_and_sort_manifests ["dist/x/channel-rust-1.8.0.toml",
        "dist/y/channel-rust-1.8.0.toml"]).tracked =
      ["dist/y/channel-rust-1.8.0.toml"] :=
  C8_amended [] [] [] "dist/x/channel-rust-1.8.0.toml"
    "dist/y/channel-rust-1.8.0.toml" "1.8.0" (by decide) (by decide)
    (by decide) (by decide) (by decide) (by decide) (by decide) (by decide)

/-! ## Claim C9 -/

/-- C9 counterexample: a beta identifier carrying a numeric iteration suffix
is nevertheless excluded when it contains a member of the historically
duplicated version set and a newer identifier containing that version is
present: channel-rust-1.49.0-beta.3.toml is dropped by the duplicate rule. -/
theorem C9_counterexample :
    hasBetaNum "dist/x/channel-rust-1.49.0-beta.3.toml".toList = true ∧
    (filter_and_sort_manifests ["dist/x/channel-rust-1.49.0-beta.3.toml",
        "dist/y/channel-rust-1.49.0.toml"]).tracked =
      ["dist/y/channel-rust-1.49.0.toml"] ∧
    "dist/x/channel-rust-1.49.0-beta.3.toml" ∉
      (filter_and_sort_manifests ["dist/x/channel-rust-1.49.0-beta.3.toml",
        "dist/y/channel-rust-1.49.0.toml"]).tracked := by
  refine ⟨rfl, rfl, ?_⟩
  decide

/-- C9 (amended): the tracked output excludes every identifier containing
"beta" without a numeric beta-iteration suffix; and a numbered-beta
identifier of the input is included provided none of the other filter rules
drops it: it is not a nightly pointer, differs from the identifiers selected
as the last stable and beta pointers, and contains no member of the
historically duplicated version set. -/
theorem C9_amended (paths : List String) (p : String) :
    (p ∈ (filter_and_sort_manifests paths).tracked →
      containsStr p "beta" = true → hasBetaNum p.toList = true) ∧
    (p ∈ paths →
      containsStr p "channel-rust-nightly.toml" = false →
      some p ≠ (filter_and_sort_manifests paths).stable →
      some p ≠ (filter_and_sort_manifests paths).beta →
      firstDedupMatch p = none →
      hasBetaNum p.toList = true →
      p ∈ (filter_and_sort_manifests paths).tracked) := by
  constructor
  · intro h hb
    have h2 := foldl_out_charact
      (lastMatching "channel-rust-stable.toml" paths)
      (lastMatching "channel-rust-beta.toml" paths)
      paths.reverse ([], []) p h
    rcases h2 with h2 | h2
    · cases h2
    · have hbeta := h2.2.2.2.2
      rw [hb, Bool.true_and, Bool.not_eq_false'] at hbeta
      exact hbeta
  · intro hmem hn hls hlb hd hnum
    have hbeta : (containsStr p "beta" && !hasBetaNum p.toList) = false := by
      rw [hnum]
      simp
    exact foldl_kept_clean
      (lastMatching "channel-rust-stable.toml" paths)
      (lastMatching "channel-rust-beta.toml" paths)
      paths.reverse p hn hlb hls hd hbeta ([], [])
      (List.mem_reverse.mpr hmem)

/-- C9 witness: the amended theorem applied to the two example identifiers
of the specification: the numbered beta is included and, being in the
tracked output while containing "beta", carries a numeric suffix; the
unnumbered beta pointer is not in the tracked output. -/
theorem C9_witness :
    "dist/2020-02-01/channel-rust-1.41.0-beta.3.toml" ∈
      (filter_and_sort_manifests ["dist/2020-01-01/channel-rust-beta.toml",
        "dist/2020-02-01/channel-rust-1.41.0-beta.3.toml"]).tracked ∧
    hasBetaNum "dist/2020-02-01/channel-rust-1.41.0-beta.3.toml".toList =
      true :=
  ⟨(C9_amended ["dist/2020-01-01/channel-rust-beta.toml",
      "dist/2020-02-01/channel-rust-1.41.0-beta.3.toml"]
      "dist/2020-02-01/channel-rust-1.41.0-beta.3.toml").2
    (by decide) (by decide) (by decide) (by decide) (by decide) (by decide),
   (C9_amended ["dist/2020-01-01/channel-rust-beta.toml",
      "dist/2020-02-01/channel-rust-1.41.0-beta.3.toml"]
      "dist/2020-02-01/channel-rust-1.41.0-beta.3.toml").1
    (by decide) (by decide)⟩

/-! ## Claim C7 -/

/-- Membership after a Python dict update: an entry is an untouched old
entry or the inserted key/value pair. -/
theorem dictInsert_mem (mv : List (String × String)) (k v : String)
    (kv : String × String) (h : kv ∈ dictInsert mv k v) :
    kv ∈ mv ∨ kv = (k, v) := by
  unfold dictInsert at h
  split at h
  · rcases List.mem_map.mp h with ⟨kv', hkv', he⟩
    by_cases hk : (kv'.1 == k) = true
    · rw [if_pos hk] at he
      exact Or.inr he.symm
    · rw [if_neg hk] at he
      exact Or.inl (he ▸ hkv')
  · rcases List.mem_append.mp h with h2 | h2
    · exact Or.inl h2
    · exact Or.inr (List.mem_singleton.mp h2)

/-- Versions already collected stay collected. -/
theorem collect_vc_mono (paths : List String) :
    ∀ (mv : List (String × String)) (vc : List String) (x : String),
      x ∈ vc → x ∈ (collectVersions paths mv vc).2 := by
  induction paths with
  | nil => intro mv vc x hx; exact hx
  | cons p rest ih =>
    intro mv vc x hx
    unfold collectVersions
    split
    · exact ih _ _ x (List.mem_append_left _ hx)
    · exact ih _ _ x hx

/-- Every collected path/version entry not present initially comes from a
path of the input with that extracted version. -/
theorem collect_src (paths : List String) :
    ∀ (mv : List (String × String)) (vc : List String)
      (kv : String × String), kv ∈ (collectVersions paths mv vc).1 →
      kv ∈ mv ∨ (kv.1 ∈ paths ∧ extract_path_version kv.1 = some kv.2) := by
  induction paths with
  | nil => intro mv vc kv h; exact Or.inl h
  | cons p rest ih =>
    intro mv vc kv h
    unfold collectVersions at h
    split at h
    · rename_i v hv
      rcases ih _ _ kv h with h2 | h2
      · rcases dictInsert_mem mv p v kv h2 with h3 | h3
        · exact Or.inl h3
        · refine Or.inr ⟨?_, ?_⟩
          · rw [h3]; exact List.mem_cons_self p rest
          · rw [h3]; exact hv
      · exact Or.inr ⟨List.mem_cons_of_mem p h2.1, h2.2⟩
    · rcases ih _ _ kv h with h2 | h2
      · exact Or.inl h2
      · exact Or.inr ⟨List.mem_cons_of_mem p h2.1, h2.2⟩

/-- Every collected entry has its version in the collected version list. -/
theorem collect_val (paths : List String) :
    ∀ (mv : List (String × String)) (vc : List String),
      (∀ kv ∈ mv, kv.2 ∈ vc) →
      ∀ kv ∈ (collectVersions paths mv vc).1,
        kv.2 ∈ (collectVersions paths mv vc).2 := by
  induction paths with
  | nil =>
    intro mv vc hinv kv h
    exact hinv kv h
  | cons p rest ih =>
    intro mv vc hinv kv h
    unfold collectVersions at h ⊢
    split at h <;> rename_i hv
    all_goals rw [hv] at *
    · refine ih _ _ ?_ kv h
      intro kv' hkv'
      rcases dictInsert_mem mv p _ kv' hkv' with h2 | h2
      · exact List.mem_append_left _ (hinv kv' h2)
      · rw [h2]; exact List.mem_append_right _ (List.mem_singleton.mpr rfl)
    · exact ih _ _ hinv kv h

/-- C7: when every tracked identifier has an extractable version that is
already present in the store release set, the Diff Planner returns the empty
plan; in particular a second planner run against an unchanged tracked set
and a store already holding every extracted version yields an empty plan. -/
theorem C7_planner_empty (paths : List String) (dbVersions : List String)
    (h : ∀ p ∈ paths, ∃ v, extract_path_version p = some v ∧ v ∈ dbVersions) :
    get_versions_to_process paths dbVersions = [] := by
  simp only [get_versions_to_process]
  split
  · rfl
  · rename_i hvc
    rw [List.map_eq_nil_iff]
    rw [List.filter_eq_nil_iff]
    intro kv hkv
    have hsrc := collect_src paths [] [] kv hkv
    rcases hsrc with h2 | h2
    · cases h2
    · have hval := collect_val paths [] [] (by intro kv' hkv'; cases hkv')
        kv hkv
      rcases h kv.1 h2.1 with ⟨v, he, hvdb⟩
      rw [h2.2] at he
      have hveq : v = kv.2 := (Option.some.injEq _ _ ▸ he).symm
      rw [hveq] at hvdb
      have hcontains : (get_existing_versions dbVersions
          (collectVersions paths [] []).2).contains kv.2 = true := by
        unfold get_existing_versions
        rw [if_neg hvc]
        apply List.elem_eq_true_of_mem
        apply List.mem_filter.mpr
        exact ⟨hvdb, List.elem_eq_true_of_mem hval⟩
      rw [hcontains]
      decide

/-- C7 witness: a single tracked identifier whose extracted version 1.43.0
is already stored yields the empty plan. -/
theorem C7_witness :
    get_versions_to_process ["dist/2020/channel-rust-1.43.0.toml"]
      ["1.43.0"] = [] :=
  C7_planner_empty ["dist/2020/channel-rust-1.43.0.toml"] ["1.43.0"]
    (by
      intro p hp
      rw [List.mem_singleton.mp hp]
      exact ⟨"1.43.0", by decide, by decide⟩)

/-! ## Claim C5 -/

/-- C5 counterexample: a target entry carrying xz_url, url and hash but no
xz_hash.  The parser records the compressed URL together with the PLAIN
hash — the recorded pair mixes the two transport pairs. -/
theorem C5_counterexample :
    parseTargets [("x86_64-unknown-linux-gnu",
      { url := some "https://example/rust.tar.gz",
        hash := some "plainhash",
        xz_url := some "https://example/rust.tar.xz",
        xz_hash := none })] =
      [{ name := "x86_64-unknown-linux-gnu",
         url := "https://example/rust.tar.xz", hash := "plainhash" }] := by
  rfl

/-- C5 (amended): the URL and the hash each independently prefer the
compressed field over the plain one.  When both compressed fields are
present and nonempty the recorded pair is exactly the compressed pair, and
when both compressed fields are absent the recorded pair is exactly the
plain pair; only a partially present compressed pair mixes fields (see the
counterexample). -/
theorem C5_amended (tname : String) (td : TargetData)
    (rest : List (String × TargetData)) :
    (truthy td.xz_url = true → truthy td.xz_hash = true →
      parseTargets ((tname, td) :: rest) =
        { name := tname, url := td.xz_url.getD "",
          hash := td.xz_hash.getD "" } :: parseTargets rest) ∧
    (td.xz_url = none → td.xz_hash = none →
      truthy td.url = true → truthy td.hash = true →
      parseTargets ((tname, td) :: rest) =
        { name := tname, url := td.url.getD "",
          hash := td.hash.getD "" } :: parseTargets rest) := by
  constructor
  · intro hxu hxh
    match hu : td.xz_url, hh : td.xz_hash with
    | some u, some h =>
      simp only [parseTargets, List.filterMap_cons, hu, hh]
      rw [hu] at hxu
      rw [hh] at hxh
      simp only [truthy] at hxu hxh
      simp [truthy, hxu, hxh, parseTargets]
    | some u, none => rw [hh] at hxh; cases hxh
    | none, _ => rw [hu] at hxu; cases hxu
  · intro hxu hxh hu hh
    match hu2 : td.url, hh2 : td.hash with
    | some u, some h =>
      simp only [parseTargets, List.filterMap_cons, hxu, hxh, hu2, hh2]
      rw [hu2] at hu
      rw [hh2] at hh
      simp only [truthy] at hu hh
      simp [truthy, hu, hh, parseTargets]
    | some u, none => rw [hh2] at hh; cases hh
    | none, _ => rw [hu2] at hu; cases hu

/-- C5 witness: the amended theorem applied to one fully compressed entry
and one fully plain entry. -/
theorem C5_witness :
    parseTargets [("a",
        (⟨some "pu", some "ph", some "xu", some "xh"⟩ : TargetData))] =
      [{ name := "a", url := "xu", hash := "xh" }] ∧
    parseTargets [("b",
        (⟨some "pu", some "ph", none, none⟩ : TargetData))] =
      [{ name := "b", url := "pu", hash := "ph" }] :=
  ⟨(C5_amended "a" ⟨some "pu", some "ph", some "xu", some "xh"⟩ []).1
      (by decide) (by decide),
   (C5_amended "b" ⟨some "pu", some "ph", none, none⟩ []).2
      rfl rfl (by decide) (by decide)⟩

/-! ## Claim C10 -/

/-- C10: a target entry with a URL but no truthy hash (or a hash but no
truthy URL) contributes zero Targets for that platform, and the success of
parse_manifest on a document depends only on the presence of the date and an
extractable rustc version, never on target entries. -/
theorem C10_target_skip (tname : String) (td : TargetData)
    (rest : List (String × TargetData)) (mpath : String) (m : ManifestDoc)
    (h : (truthy td.hash = false ∧ truthy td.xz_hash = false) ∨
         (truthy td.url = false ∧ truthy td.xz_url = false)) :
    parseTargets ((tname, td) :: rest) = parseTargets rest ∧
    (parse_manifest mpath m).isSome =
      (m.date.isSome &&
        (m.pkg.bind (fun pkg =>
          ((pkg.lookup "rustc").bind (fun cd => cd.version)).bind
            extractVersionPrefix)).isSome) := by
  constructor
  · simp only [parseTargets, List.filterMap_cons]
    rcases h with ⟨h1, h2⟩ | ⟨h1, h2⟩
    · have hval : truthy (match td.xz_hash with
          | some x => some x
          | none => td.hash) = false := by
        cases hx : td.xz_hash with
        | some x => rw [hx] at h2; exact h2
        | none => exact h1
      rw [hval, Bool.and_false]
      rfl
    · have hval : truthy (match td.xz_url with
          | some x => some x
          | none => td.url) = false := by
        cases hx : td.xz_url with
        | some x => rw [hx] at h2; exact h2
        | none => exact h1
      rw [hval, Bool.false_and]
      rfl
  · cases hd : m.date with
    | none => simp [parse_manifest, hd]
    | some d =>
      cases hp : m.pkg with
      | none => simp [parse_manifest, hd, hp]
      | some pkg =>
        cases hr : pkg.lookup "rustc" with
        | none => simp [parse_manifest, hd, hp, hr]
        | some cd =>
          cases hv : cd.version with
          | none => simp [parse_manifest, hd, hp, hr, hv]
          | some vs =>
            cases he : extractVersionPrefix vs with
            | none => simp [parse_manifest, hd, hp, hr, hv, he]
            | some ver => simp [parse_manifest, hd, hp, hr, hv, he]

/-- A target table with a URL and no hash, for the C10 witness. -/
def tdC10 : TargetData := { url := some "https://example/rust.tar.gz" }

/-- A well-formed manifest document, for the C10 witness. -/
def mC10 : ManifestDoc :=
  { date := some "2020-01-01"
    pkg := some [("rustc",
      { version := some "1.43.0 (abc123)"
        target := [("x86_64-unknown-linux-gnu", tdC10)] })] }

/-- C10 witness: the theorem applied to a URL-only target entry inside a
well-formed document: the entry contributes no Target and parsing still
succeeds. -/
theorem C10_witness :
    parseTargets [("x86_64-unknown-linux-gnu", tdC10)] = [] ∧
    (parse_manifest "dist/2020-01-01/channel-rust-1.43.0.toml" mC10).isSome =
      (mC10.date.isSome &&
        (mC10.pkg.bind (fun pkg =>
          ((pkg.lookup "rustc").bind (fun cd => cd.version)).bind
            extractVersionPrefix)).isSome) :=
  C10_target_skip "x86_64-unknown-linux-gnu" tdC10 []
    "dist/2020-01-01/channel-rust-1.43.0.toml" mC10
    (Or.inl ⟨rfl, rfl⟩)

/-! ## Store lemmas -/

/-- hasVersion as membership of the version column. -/
theorem hasVersion_iff (db : Db) (v : String) :
    db.hasVersion v = true ↔ v ∈ db.rust_versions.map (fun r => r.version) := by
  simp [Db.hasVersion, List.any_eq_true, List.mem_map, beq_iff_eq]

/-- The component executemany touches only the components table and the id
counter. -/
theorem insertComps_fields (l : List Component) :
    ∀ db : Db, (insertComps db l).1.rust_versions = db.rust_versions ∧
      (insertComps db l).1.targets = db.targets ∧
      (insertComps db l).1.artefacts = db.artefacts := by
  induction l with
  | nil => intro db; exact ⟨rfl, rfl, rfl⟩
  | cons c rest ih =>
    intro db
    unfold insertComps
    split
    · exact ⟨rfl, rfl, rfl⟩
    · split
      · exact ⟨rfl, rfl, rfl⟩
      · exact ih _

/-- The artefact executemany touches only the artefacts table. -/
theorem insertArts_fields (l : List ArtefactRow) :
    ∀ db : Db, (insertArts db l).1.rust_versions = db.rust_versions ∧
      (insertArts db l).1.components = db.components ∧
      (insertArts db l).1.targets = db.targets := by
  induction l with
  | nil => intro db; exact ⟨rfl, rfl, rfl⟩
  | cons a rest ih =>
    intro db
    unfold insertArts
    split
    · exact ⟨rfl, rfl, rfl⟩
    · exact ih _

/-- A profile UPDATE touches only the components table. -/
theorem applyProfileEntry_fields (db : Db) (rv p : String)
    (cs : List String) :
    (applyProfileEntry db rv p cs).rust_versions = db.rust_versions ∧
    (applyProfileEntry db rv p cs).targets = db.targets ∧
    (applyProfileEntry db rv p cs).artefacts = db.artefacts := by
  unfold applyProfileEntry
  split
  · exact ⟨rfl, rfl, rfl⟩
  · split
    · exact ⟨rfl, rfl, rfl⟩
    · split
      · exact ⟨rfl, rfl, rfl⟩
      · split
        · exact ⟨rfl, rfl, rfl⟩
        · exact ⟨rfl, rfl, rfl⟩

/-- The profile UPDATE fold touches only the components table. -/
theorem foldProfiles_fields (rv : String)
    (ps : List (String × List String)) :
    ∀ d : Db,
      ((ps.foldl (fun d e => applyProfileEntry d rv e.1 e.2) d).rust_versions
        = d.rust_versions) ∧
      ((ps.foldl (fun d e => applyProfileEntry d rv e.1 e.2) d).targets
        = d.targets) ∧
      ((ps.foldl (fun d e => applyProfileEntry d rv e.1 e.2) d).artefacts
        = d.artefacts) := by
  induction ps with
  | nil => intro d; exact ⟨rfl, rfl, rfl⟩
  | cons e rest ih =>
    intro d
    have h1 := ih (applyProfileEntry d rv e.1 e.2)
    have h2 := applyProfileEntry_fields d rv e.1 e.2
    rw [List.foldl_cons]
    exact ⟨h1.1.trans h2.1, h1.2.1.trans h2.2.1, h1.2.2.trans h2.2.2⟩

/-- The profile update phase touches only the components table. -/
theorem updateProfiles_fields (db : Db) (rust : RustVersion) :
    (updateProfiles db rust).1.rust_versions = db.rust_versions ∧
    (updateProfiles db rust).1.targets = db.targets ∧
    (updateProfiles db rust).1.artefacts = db.artefacts := by
  unfold updateProfiles
  split
  · exact ⟨rfl, rfl, rfl⟩
  · split
    · exact ⟨rfl, rfl, rfl⟩
    · split
      · exact ⟨rfl, rfl, rfl⟩
      · split
        · exact ⟨(foldProfiles_fields rust.version _ db).1,
            (foldProfiles_fields rust.version _ db).2.1,
            (foldProfiles_fields rust.version _ db).2.2⟩
        · exact ⟨rfl, rfl, rfl⟩

/-- The rust_versions table after insert_rust_version: the new row is
appended exactly when the version was fresh; every later stage of the insert
leaves the table unchanged, whether or not it fails. -/
theorem insert_rust_version_versions (db : Db) (rust : RustVersion) :
    (insert_rust_version db rust).1.rust_versions =
      if db.hasVersion rust.version then db.rust_versions
      else db.rust_versions ++
        [{ version := rust.version, release_date := rust.release_date,
           latest_stable := rust.latest_stable,
           latest_beta := rust.latest_beta,
           latest_nightly := rust.latest_nightly }] := by
  unfold insert_rust_version
  split
  · rfl
  · split
    · split
      · rename_i db4 hart
        have h1 := (insertArts_fields (artefactRows rust)
          (addVersionRow db rust)).1
        rw [hart] at h1
        exact h1
      · rename_i db4 hart
        have h1 := (insertArts_fields (artefactRows rust)
          (addVersionRow db rust)).1
        rw [hart] at h1
        exact (updateProfiles_fields db4 rust).1.trans h1
    · split
      · rename_i db2 hcomp
        have h1 := (insertComps_fields rust.components
          (addVersionRow db rust)).1
        rw [hcomp] at h1
        exact h1
      · rename_i db2 hcomp
        have h1 := (insertComps_fields rust.components
          (addVersionRow db rust)).1
        rw [hcomp] at h1
        split
        · exact h1
        · rename_i trows htr
          split
          · rename_i db4 hart
            have h3 := (insertArts_fields (artefactRows rust)
              (addTargetRows db2 trows)).1
            rw [hart] at h3
            exact h3.trans h1
          · rename_i db4 hart
            have h3 := (insertArts_fields (artefactRows rust)
              (addTargetRows db2 trows)).1
            rw [hart] at h3
            exact ((updateProfiles_fields db4 rust).1.trans h3).trans h1

/-- A version present before insert_rust_version is present afterwards. -/
theorem insert_hasVersion_mono (db : Db) (rust : RustVersion) (v : String)
    (h : db.hasVersion v = true) :
    (insert_rust_version db rust).1.hasVersion v = true := by
  rw [hasVersion_iff] at h ⊢
  rw [insert_rust_version_versions]
  split
  · exact h
  · rw [List.map_append]
    exact List.mem_append_left _ h

/-- A version present after insert_rust_version was present before or is the
inserted release version. -/
theorem insert_hasVersion_src (db : Db) (rust : RustVersion) (v : String)
    (h : (insert_rust_version db rust).1.hasVersion v = true) :
    db.hasVersion v = true ∨ rust.version = v := by
  rw [hasVersion_iff, insert_rust_version_versions] at h
  split at h
  · exact Or.inl ((hasVersion_iff db v).mpr h)
  · rw [List.map_append] at h
    rcases List.mem_append.mp h with h2 | h2
    · exact Or.inl ((hasVersion_iff db v).mpr h2)
    · simp only [List.map_cons, List.map_nil, List.mem_singleton] at h2
      exact Or.inr h2.symm

/-- insert_rust_version keeps the version column duplicate-free. -/
theorem insert_nodup (db : Db) (rust : RustVersion)
    (h : (db.rust_versions.map (fun r => r.version)).Nodup) :
    ((insert_rust_version db rust).1.rust_versions.map
      (fun r => r.version)).Nodup := by
  rw [insert_rust_version_versions]
  split
  · exact h
  · rename_i hfresh
    rw [List.map_append]
    refine List.Nodup.append h (List.nodup_singleton _) ?_
    intro x hx hx2
    simp only [List.map_cons, List.map_nil, List.mem_singleton] at hx2
    rw [hx2] at hx
    exact hfresh ((hasVersion_iff db rust.version).mpr hx)

/-- Versions survive the whole insertion loop. -/
theorem runInsertLoop_hasVersion_mono (l : List RustVersion) :
    ∀ (db : Db) (v : String), db.hasVersion v = true →
      (runInsertLoop db l).hasVersion v = true := by
  induction l with
  | nil => intro db v h; exact h
  | cons r rest ih =>
    intro db v h
    exact ih _ v (insert_hasVersion_mono db r v h)

/-- Versions present after the insertion loop were present before or belong
to some release of the batch. -/
theorem runInsertLoop_hasVersion_src (l : List RustVersion) :
    ∀ (db : Db) (v : String),
      (runInsertLoop db l).hasVersion v = true →
      db.hasVersion v = true ∨ ∃ rv ∈ l, rv.version = v := by
  induction l with
  | nil => intro db v h; exact Or.inl h
  | cons r rest ih =>
    intro db v h
    rcases ih _ v h with h2 | h2
    · rcases insert_hasVersion_src db r v h2 with h3 | h3
      · exact Or.inl h3
      · exact Or.inr ⟨r, List.mem_cons_self r rest, h3⟩
    · rcases h2 with ⟨rv, hrv, he⟩
      exact Or.inr ⟨rv, List.mem_cons_of_mem r hrv, he⟩

/-- The insertion loop keeps the version column duplicate-free. -/
theorem runInsertLoop_nodup (l : List RustVersion) :
    ∀ db : Db, (db.rust_versions.map (fun r => r.version)).Nodup →
      ((runInsertLoop db l).rust_versions.map (fun r => r.version)).Nodup := by
  induction l with
  | nil => intro db h; exact h
  | cons r rest ih =>
    intro db h
    exact ih _ (insert_nodup db r h)

/-- The nightly DELETE keeps exactly the rows without the nightly flag. -/
theorem delete_nightly_versions (db : Db) :
    (delete_nightly db).rust_versions =
      db.rust_versions.filter (fun r => !r.latest_nightly) := rfl

/-- The nightly DELETE keeps the version column duplicate-free. -/
theorem delete_nightly_nodup (db : Db)
    (h : (db.rust_versions.map (fun r => r.version)).Nodup) :
    ((delete_nightly db).rust_versions.map (fun r => r.version)).Nodup := by
  rw [delete_nightly_versions]
  exact h.sublist ((List.filter_sublist _).map _)

/-- With a duplicate-free version column, deleting the nightly-flagged row
removes its version. -/
theorem delete_nightly_hasVersion (db : Db) (r : VersionRow)
    (hr : r ∈ db.rust_versions) (hf : r.latest_nightly = true)
    (hnd : (db.rust_versions.map (fun x => x.version)).Nodup) :
    (delete_nightly db).hasVersion r.version = false := by
  rw [Bool.eq_false_iff]
  intro hc
  rw [hasVersion_iff, delete_nightly_versions] at hc
  rcases List.mem_map.mp hc with ⟨r2, hr2, he⟩
  have hr2f := List.mem_filter.mp hr2
  have heq : r2 = r := List.inj_on_of_nodup_map hnd hr2f.1 hr he
  rw [heq, hf] at hr2f
  exact absurd hr2f.2 (by decide)

/-- The flag UPDATE leaves the version column unchanged. -/
theorem set_flags_versions (db : Db) (s b n : Option String) :
    (set_rust_channel_flags db s b n).rust_versions.map (fun r => r.version) =
      db.rust_versions.map (fun r => r.version) := by
  unfold set_rust_channel_flags
  rw [List.map_map]
  rfl

/-- The flag UPDATE changes no version membership. -/
theorem set_flags_hasVersion (d : Db) (s b n : Option String) (v : String) :
    (set_rust_channel_flags d s b n).hasVersion v = d.hasVersion v := by
  rw [Bool.eq_iff_iff, hasVersion_iff, hasVersion_iff, set_flags_versions]

/-- The three flag counts after the flag UPDATE are the counts of rows whose
version matches the corresponding channel version. -/
theorem set_flags_counts (db : Db) (s b n : Option String) :
    ((set_rust_channel_flags db s b n).rust_versions.countP
        (fun r => r.latest_stable) =
      db.rust_versions.countP (fun r => sqlEq r.version s)) ∧
    ((set_rust_channel_flags db s b n).rust_versions.countP
        (fun r => r.latest_beta) =
      db.rust_versions.countP (fun r => sqlEq r.version b)) ∧
    ((set_rust_channel_flags db s b n).rust_versions.countP
        (fun r => r.latest_nightly) =
      db.rust_versions.countP (fun r => sqlEq r.version n)) := by
  unfold set_rust_channel_flags
  refine ⟨?_, ?_, ?_⟩ <;> rw [List.countP_map] <;> rfl

/-- With a duplicate-free version column, at most one row matches a channel
version. -/
theorem countP_sqlEq_le_one (o : Option String) :
    ∀ rows : List VersionRow,
      ((rows.map (fun r => r.version)).Nodup) →
      rows.countP (fun r => sqlEq r.version o) ≤ 1 := by
  cases o with
  | none =>
    intro rows _
    have h0 : rows.countP (fun r => sqlEq r.version none) = 0 :=
      List.countP_eq_zero.mpr (by intro r _; simp [sqlEq])
    omega
  | some s =>
    intro rows
    induction rows with
    | nil => intro _; simp
    | cons r rest ih =>
      intro hnd
      rw [List.map_cons, List.nodup_cons] at hnd
      rw [List.countP_cons]
      by_cases hc : r.version = s
      · have h0 : rest.countP (fun x => sqlEq x.version (some s)) = 0 := by
          refine List.countP_eq_zero.mpr ?_
          intro x hx
          simp only [sqlEq, beq_iff_eq]
          intro hxs
          have hmem : x.version ∈ rest.map (fun y => y.version) :=
            List.mem_map_of_mem _ hx
          rw [hxs, ← hc] at hmem
          exact hnd.1 hmem
        rw [h0]
        split <;> omega
      · have hp : sqlEq r.version (some s) = false := by
          simp [sqlEq, hc]
        rw [hp]
        have h2 := ih hnd.2
        split
        · rename_i hcc
          cases hcc
        · omega

/-! ## Claim C1 -/

/-- C1: if the committed store entering a run has a duplicate-free version
column and at most one row per channel flag, the state the run commits has
the same properties; and the channel-flag UPDATE is a full re-assertion:
after set_rust_channel_flags every row carries a flag exactly when its
version equals the corresponding channel version. -/
theorem C1_channel_flags (is_new : Bool) (db : Db)
    (parsed : List RustVersion) (s b n : Option String) (d : Db)
    (r : VersionRow)
    (hnd : (db.rust_versions.map (fun x => x.version)).Nodup)
    (h1 : db.rust_versions.countP (fun x => x.latest_stable) ≤ 1)
    (h2 : db.rust_versions.countP (fun x => x.latest_beta) ≤ 1)
    (h3 : db.rust_versions.countP (fun x => x.latest_nightly) ≤ 1)
    (hr : r ∈ (set_rust_channel_flags d s b n).rust_versions) :
    (((runMain is_new db parsed s b n).rust_versions.map
        (fun x => x.version)).Nodup ∧
      (runMain is_new db parsed s b n).rust_versions.countP
        (fun x => x.latest_stable) ≤ 1 ∧
      (runMain is_new db parsed s b n).rust_versions.countP
        (fun x => x.latest_beta) ≤ 1 ∧
      (runMain is_new db parsed s b n).rust_versions.countP
        (fun x => x.latest_nightly) ≤ 1) ∧
    ((r.latest_stable = true ↔ s = some r.version) ∧
     (r.latest_beta = true ↔ b = some r.version) ∧
     (r.latest_nightly = true ↔ n = some r.version)) := by
  constructor
  · unfold runMain
    split
    · exact ⟨hnd, h1, h2, h3⟩
    · unfold run_db_phase
      have hnd1 :
          (((if !is_new &&
              ((dedup_by_version parsed).find?
                (fun rv => rv.latest_nightly)).isSome
            then delete_nightly db else db)).rust_versions.map
            (fun x => x.version)).Nodup := by
        split
        · exact delete_nightly_nodup db hnd
        · exact hnd
      have hnd2 := runInsertLoop_nodup (dedup_by_version parsed) _ hnd1
      have hcounts := set_flags_counts
        (runInsertLoop
          (if !is_new &&
              ((dedup_by_version parsed).find?
                (fun rv => rv.latest_nightly)).isSome
            then delete_nightly db else db)
          (dedup_by_version parsed)) s b n
      refine ⟨?_, ?_, ?_, ?_⟩
      · rw [set_flags_versions]
        exact hnd2
      · rw [hcounts.1]
        exact countP_sqlEq_le_one s _ hnd2
      · rw [hcounts.2.1]
        exact countP_sqlEq_le_one b _ hnd2
      · rw [hcounts.2.2]
        exact countP_sqlEq_le_one n _ hnd2
  · rcases List.mem_map.mp hr with ⟨r0, _, he⟩
    rw [← he]
    refine ⟨?_, ?_, ?_⟩
    · cases s with
      | none => simp [sqlEq]
      | some sv =>
        simp only [sqlEq, beq_iff_eq, Option.some.injEq]
        exact ⟨fun hh => hh.symm, fun hh => hh.symm⟩
    · cases b with
      | none => simp [sqlEq]
      | some bv =>
        simp only [sqlEq, beq_iff_eq, Option.some.injEq]
        exact ⟨fun hh => hh.symm, fun hh => hh.symm⟩
    · cases n with
      | none => simp [sqlEq]
      | some nv =>
        simp only [sqlEq, beq_iff_eq, Option.some.injEq]
        exact ⟨fun hh => hh.symm, fun hh => hh.symm⟩

/-- A store with one stable-flagged release, for the C1 witness. -/
def dbC1 : Db :=
  { rust_versions := [⟨"1.49.0", "2020-12-31", true, false, false⟩] }

/-- A parsed release, for the C1 witness. -/
def relC1 : RustVersion :=
  { version := "1.50.0", release_date := "2021-02-11"
    manifest_url := "https://dist/2021-02-11/channel-rust-1.50.0.toml"
    components := [] }

/-- The re-flagged row of dbC1, for the C1 witness. -/
def rowC1 : VersionRow := ⟨"1.49.0", "2020-12-31", false, false, false⟩

/-- C1 witness: the theorem applied to a concrete run that inserts 1.50.0
and re-asserts the stable flag onto it. -/
theorem C1_witness :
    (((runMain false dbC1 [relC1] (some "1.50.0") none none).rust_versions.map
        (fun x => x.version)).Nodup ∧
      (runMain false dbC1 [relC1] (some "1.50.0") none
        none).rust_versions.countP (fun x => x.latest_stable) ≤ 1 ∧
      (runMain false dbC1 [relC1] (some "1.50.0") none
        none).rust_versions.countP (fun x => x.latest_beta) ≤ 1 ∧
      (runMain false dbC1 [relC1] (some "1.50.0") none
        none).rust_versions.countP (fun x => x.latest_nightly) ≤ 1) ∧
    ((rowC1.latest_stable = true ↔
        (some "1.50.0" : Option String) = some rowC1.version) ∧
     (rowC1.latest_beta = true ↔
        (none : Option String) = some rowC1.version) ∧
     (rowC1.latest_nightly = true ↔
        (none : Option String) = some rowC1.version)) :=
  C1_channel_flags false dbC1 [relC1] (some "1.50.0") none none dbC1 rowC1
    (by decide) (by decide) (by decide) (by decide) (by decide)

/-! ## Claim C2 -/

/-- A store already holding an artefact URL, for the C2 counterexample. -/
def db0C2 : Db :=
  { rust_versions := [⟨"1.0.0", "2020-01-01", false, false, false⟩]
    artefacts := [⟨"1.0.0", 3, "t", "https://static/a.tar.gz", "h"⟩] }

/-- A release whose artefact URL collides with the stored one, for the C2
counterexample. -/
def relC2 : RustVersion :=
  { version := "1.50.0", release_date := "2021-01-01"
    manifest_url := "https://dist/channel-rust-1.50.0.toml"
    components := [⟨"rustc", "1.50.0", "1.50.0", none, [⟨"x86", "u", "h"⟩]⟩]
    artefacts := [⟨ArtefactType.source_code, "https://static/a.tar.gz",
      "h2", "s"⟩] }

/-- C2 counterexample: insertion of the dependents of release 1.50.0 fails
on the artefact URL uniqueness constraint, yet after the run the committed
store contains the 1.50.0 release row, its component and its target with
ZERO of its artefacts — a partial release is observable. -/
theorem C2_counterexample :
    (insert_rust_version db0C2 relC2).2 = false ∧
    relC2.artefacts ≠ [] ∧
    (runMain false db0C2 [relC2] none none none).hasVersion "1.50.0" = true ∧
    (runMain false db0C2 [relC2] none none
      none).components.filter (fun c => c.rust_version == "1.50.0") =
      [⟨0, "rustc", "1.50.0", "1.50.0", none, false, false, false⟩] ∧
    (runMain false db0C2 [relC2] none none
      none).artefacts.filter (fun a => a.rust_version == "1.50.0") = [] := by
  refine ⟨rfl, ?_, rfl, rfl, rfl⟩
  decide

/-- C2 (amended): insertion of a release is not atomic.  When insertion of a
dependent row fails after the release row was inserted, the release row
stays in the state, the failure does not remove any previously present
version, and the remaining batch is still processed — so the committed store
can contain the partial release. -/
theorem C2_amended (db : Db) (rust : RustVersion) (rest : List RustVersion)
    (v : String)
    (hfresh : db.hasVersion rust.version = false)
    (_hfail : (insert_rust_version db rust).2 = false)
    (hv : db.hasVersion v = true) :
    (insert_rust_version db rust).1.hasVersion rust.version = true ∧
    (runInsertLoop db (rust :: rest)).hasVersion v = true ∧
    (runInsertLoop db (rust :: rest)).hasVersion rust.version = true := by
  have hins : (insert_rust_version db rust).1.hasVersion rust.version
      = true := by
    rw [hasVersion_iff, insert_rust_version_versions, hfresh]
    simp
  have hstep : runInsertLoop db (rust :: rest) =
      runInsertLoop (insert_rust_version db rust).1 rest := rfl
  refine ⟨hins, ?_, ?_⟩
  · rw [hstep]
    exact runInsertLoop_hasVersion_mono rest _ v
      (insert_hasVersion_mono db rust v hv)
  · rw [hstep]
    exact runInsertLoop_hasVersion_mono rest _ rust.version hins

/-- C2 witness: the amended theorem applied to the colliding-artefact
release over the store db0C2. -/
theorem C2_witness :
    (insert_rust_version db0C2 relC2).1.hasVersion relC2.version = true ∧
    (runInsertLoop db0C2 [relC2]).hasVersion "1.0.0" = true ∧
    (runInsertLoop db0C2 [relC2]).hasVersion relC2.version = true :=
  C2_amended db0C2 relC2 [] "1.0.0" (by decide) (by decide) (by decide)

/-! ## Claim C3 -/

/-- A store holding a nightly release 1.87.0-nightly with one component, for
the C3 counterexample. -/
def db0C3 : Db :=
  { rust_versions := [⟨"1.87.0-nightly", "2025-01-01", false, false, true⟩]
    components := [⟨0, "old-comp", "1.87.0-nightly", "1.87.0-nightly", none,
      false, false, false⟩]
    next_comp_id := 1 }

/-- A newly parsed nightly with the SAME version string as the stored one,
for the C3 counterexample. -/
def relC3 : RustVersion :=
  { version := "1.87.0-nightly", release_date := "2025-03-29"
    manifest_url := "https://dist/2025-03-29/channel-rust-nightly.toml"
    components := [], latest_nightly := true }

/-- C3 counterexample: the newly parsed nightly has exactly the version the
stored nightly held, yet the run still deletes the prior nightly release —
its component row is gone and the release row now carries the new release
date — contradicting the claim that no deletion occurs in this case. -/
theorem C3_counterexample :
    (db0C3.rust_versions.filter (fun x => x.latest_nightly)).map
      (fun x => x.version) = ["1.87.0-nightly"] ∧
    relC3.version = "1.87.0-nightly" ∧
    relC3.latest_nightly = true ∧
    db0C3.components ≠ [] ∧
    (runMain false db0C3 [relC3] none none
      (some "1.87.0-nightly")).components = [] ∧
    (runMain false db0C3 [relC3] none none
      (some "1.87.0-nightly")).rust_versions.map (fun x => x.release_date) =
      ["2025-03-29"] := by
  refine ⟨rfl, rfl, rfl, ?_, rfl, rfl⟩
  decide

/-- C3 (amended): with a duplicate-free version column, a stored
nightly-flagged release whose version is not re-inserted by the batch
survives the database phase exactly when the run does NOT delete it, and the
run deletes it exactly when the store is not fresh and the batch contains a
parsed nightly — the version strings are never compared; the deletion
cascades to the components, targets and artefacts of the deleted release. -/
theorem C3_amended (is_new : Bool) (db : Db) (batch : List RustVersion)
    (s b n : Option String) (r : VersionRow) (c : CompRow) (a : ArtefactRow)
    (t : TargetRow) (c2 : CompRow)
    (hr : r ∈ db.rust_versions) (hf : r.latest_nightly = true)
    (hnd : (db.rust_versions.map (fun x => x.version)).Nodup)
    (hne : ∀ rv ∈ batch, rv.version ≠ r.version)
    (hc : c ∈ (delete_nightly db).components)
    (ha : a ∈ (delete_nightly db).artefacts)
    (ht : t ∈ (delete_nightly db).targets)
    (hc2 : c2 ∈ db.components) (hc2v : c2.rust_version = r.version) :
    (run_db_phase is_new db batch s b n).hasVersion r.version =
      !(!is_new && (batch.find? (fun rv => rv.latest_nightly)).isSome) ∧
    c.rust_version ≠ r.version ∧
    a.rust_version ≠ r.version ∧
    t.component_id ≠ c2.id := by
  have hdead : r.version ∈ deadNightlyVersions db :=
    List.mem_map_of_mem _ (List.mem_filter.mpr ⟨hr, hf⟩)
  refine ⟨?_, ?_, ?_, ?_⟩
  · unfold run_db_phase
    rw [set_flags_hasVersion]
    cases hcond : (!is_new &&
        (batch.find? (fun rv => rv.latest_nightly)).isSome) with
    | true =>
      rw [if_pos rfl]
      show _ = false
      rw [Bool.eq_false_iff]
      intro hcc
      rcases runInsertLoop_hasVersion_src batch _ r.version hcc with h2 | h2
      · rw [delete_nightly_hasVersion db r hr hf hnd] at h2
        cases h2
      · rcases h2 with ⟨rv, hrv, he⟩
        exact hne rv hrv he
    | false =>
      rw [if_neg (by decide)]
      show _ = true
      exact runInsertLoop_hasVersion_mono batch db r.version
        ((hasVersion_iff db r.version).mpr (List.mem_map_of_mem _ hr))
  · intro he
    have hcf := (List.mem_filter.mp hc).2
    have hx : (deadNightlyVersions db).contains r.version = true :=
      List.elem_eq_true_of_mem hdead
    rw [he, hx] at hcf
    exact absurd hcf (by decide)
  · intro he
    have haf := (List.mem_filter.mp ha).2
    have hx : (deadNightlyVersions db).contains r.version = true :=
      List.elem_eq_true_of_mem hdead
    rw [he, hx] at haf
    exact absurd haf (by decide)
  · intro he
    have hc2dead : c2.id ∈ deadNightlyCompIds db := by
      refine List.mem_map_of_mem _ (List.mem_filter.mpr ⟨hc2, ?_⟩)
      rw [hc2v]
      exact List.elem_eq_true_of_mem hdead
    have htf := (List.mem_filter.mp ht).2
    have hx : (deadNightlyCompIds db).contains c2.id = true :=
      List.elem_eq_true_of_mem hc2dead
    rw [he, hx] at htf
    exact absurd htf (by decide)

/-- A store with a nightly release and a stable release, each with a
component, a target and an artefact, for the C3 witness. -/
def dbC3W : Db :=
  { rust_versions := [⟨"1.87.0-nightly", "2025-01-01", false, false, true⟩,
      ⟨"1.50.0", "2021-01-01", true, false, false⟩]
    components := [⟨0, "rustc", "1.87.0-nightly", "1.87.0-nightly", none,
        false, false, false⟩,
      ⟨1, "rustc", "1.50.0", "1.50.0", none, false, false, false⟩]
    targets := [⟨"x86", "tu1", "th1", 0⟩, ⟨"x86", "tu2", "th2", 1⟩]
    artefacts := [⟨"1.87.0-nightly", 3, "x86", "au1", "ah1"⟩,
      ⟨"1.50.0", 3, "x86", "au2", "ah2"⟩]
    next_comp_id := 2 }

/-- A parsed nightly with a new version, for the C3 witness. -/
def relC3W : RustVersion :=
  { version := "1.88.0-nightly", release_date := "2025-04-01"
    manifest_url := "https://dist/2025-04-01/channel-rust-nightly.toml"
    components := [], latest_nightly := true }

/-- The stored nightly row of dbC3W. -/
def rowC3W : VersionRow := ⟨"1.87.0-nightly", "2025-01-01", false, false, true⟩

/-- The surviving stable component of dbC3W. -/
def compC3Wstable : CompRow :=
  ⟨1, "rustc", "1.50.0", "1.50.0", none, false, false, false⟩

/-- The deleted nightly component of dbC3W. -/
def compC3Wnightly : CompRow :=
  ⟨0, "rustc", "1.87.0-nightly", "1.87.0-nightly", none, false, false, false⟩

/-- C3 witness: the amended theorem applied to the concrete store dbC3W and
a one-release nightly batch. -/
theorem C3_witness :
    (run_db_phase false dbC3W [relC3W] none none
        (some "1.88.0-nightly")).hasVersion rowC3W.version =
      !(!false &&
        (([relC3W] : List RustVersion).find?
          (fun rv => rv.latest_nightly)).isSome) ∧
    compC3Wstable.rust_version ≠ rowC3W.version ∧
    (⟨"1.50.0", 3, "x86", "au2", "ah2"⟩ : ArtefactRow).rust_version ≠
      rowC3W.version ∧
    (⟨"x86", "tu2", "th2", 1⟩ : TargetRow).component_id ≠ compC3Wnightly.id :=
  C3_amended false dbC3W [relC3W] none none (some "1.88.0-nightly") rowC3W
    compC3Wstable ⟨"1.50.0", 3, "x86", "au2", "ah2"⟩ ⟨"x86", "tu2", "th2", 1⟩
    compC3Wnightly (by decide) (by decide) (by decide) (by decide)
    (by decide) (by decide) (by decide) (by decide) (by decide)

/-! ## Claim C6 -/

/-- Rows present after the component executemany are either pre-existing or
freshly inserted with all three profile-membership booleans false. -/
theorem insertComps_mem (l : List Component) :
    ∀ (d : Db) (c : CompRow), c ∈ (insertComps d l).1.components →
      c ∈ d.components ∨
        (c.profile_complete = false ∧ c.profile_default = false ∧
         c.profile_minimal = false) := by
  induction l with
  | nil => intro d c h; exact Or.inl h
  | cons comp rest ih =>
    intro d c h
    unfold insertComps at h
    split at h
    · exact Or.inl h
    · split at h
      · exact Or.inl h
      · rcases ih _ c h with h2 | h2
        · rcases List.mem_append.mp h2 with h3 | h3
          · exact Or.inl h3
          · rw [List.mem_singleton.mp h3]
            exact Or.inr ⟨rfl, rfl, rfl⟩
        · exact Or.inr h2

/-- The components table after one profile UPDATE, row by row: the matching
membership boolean is or-ed with the match condition and nothing else
changes. -/
theorem applyProfileEntry_components (d : Db) (rv p : String)
    (cs : List String) :
    (applyProfileEntry d rv p cs).components = d.components.map (fun r =>
      { r with
        profile_complete := r.profile_complete ||
          (p == "complete" && (r.rust_version == rv && cs.contains r.name))
        profile_default := r.profile_default ||
          (p == "default" && (r.rust_version == rv && cs.contains r.name))
        profile_minimal := r.profile_minimal ||
          (p == "minimal" && (r.rust_version == rv && cs.contains r.name)) }) := by
  unfold applyProfileEntry
  by_cases hemp : cs.isEmpty
  · rw [if_pos hemp]
    have hcs : cs = [] := by
      cases cs with
      | nil => rfl
      | cons x xs => cases hemp
    subst hcs
    symm
    refine (List.map_congr_left ?_).trans (List.map_id _)
    intro r _
    rw [show (List.contains ([] : List String) r.name) = false from rfl]
    simp
  · rw [if_neg (by simpa using hemp)]
    by_cases hp1 : p = "complete"
    · subst hp1
      rw [if_pos (by rfl)]
      refine List.map_congr_left ?_
      intro r _
      cases hcond : (r.rust_version == rv && cs.contains r.name) with
      | true => simp [beq_iff_eq]
      | false => simp [beq_iff_eq]
    · rw [if_neg (by simpa [beq_iff_eq] using hp1)]
      by_cases hp2 : p = "default"
      · subst hp2
        rw [if_pos (by rfl)]
        refine List.map_congr_left ?_
        intro r _
        cases hcond : (r.rust_version == rv && cs.contains r.name) with
        | true => simp [beq_iff_eq]
        | false => simp [beq_iff_eq]
      · rw [if_neg (by simpa [beq_iff_eq] using hp2)]
        by_cases hp3 : p = "minimal"
        · subst hp3
          rw [if_pos (by rfl)]
          refine List.map_congr_left ?_
          intro r _
          cases hcond : (r.rust_version == rv && cs.contains r.name) with
          | true => simp [beq_iff_eq]
          | false => simp [beq_iff_eq]
        · rw [if_neg (by simpa [beq_iff_eq] using hp3)]
          symm
          refine (List.map_congr_left ?_).trans (List.map_id _)
          intro r _
          have b1 : (p == "complete") = false := by
            simpa [beq_iff_eq] using hp1
          have b2 : (p == "default") = false := by
            simpa [beq_iff_eq] using hp2
          have b3 : (p == "minimal") = false := by
            simpa [beq_iff_eq] using hp3
          simp [b1, b2, b3]

/-- The components table after the whole profile UPDATE fold: each
membership boolean of each row is or-ed with "some profile entry of that
name lists this component of this release". -/
theorem foldProfiles_components (rv : String)
    (profs : List (String × List String)) :
    ∀ d : Db,
      (profs.foldl (fun d e => applyProfileEntry d rv e.1 e.2) d).components =
        d.components.map (fun r =>
          { r with
            profile_complete := r.profile_complete || profs.any (fun e =>
              e.1 == "complete" &&
                (r.rust_version == rv && e.2.contains r.name))
            profile_default := r.profile_default || profs.any (fun e =>
              e.1 == "default" &&
                (r.rust_version == rv && e.2.contains r.name))
            profile_minimal := r.profile_minimal || profs.any (fun e =>
              e.1 == "minimal" &&
                (r.rust_version == rv && e.2.contains r.name)) }) := by
  induction profs with
  | nil =>
    intro d
    symm
    refine (List.map_congr_left ?_).trans (List.map_id _)
    intro r _
    simp
  | cons e ps ih =>
    intro d
    rw [List.foldl_cons, ih (applyProfileEntry d rv e.1 e.2),
      applyProfileEntry_components, List.map_map]
    refine List.map_congr_left ?_
    intro r _
    simp only [Function.comp_apply, List.any_cons]
    simp [Bool.or_assoc]

/-- Rows after the profile update phase, when profile data is present,
nonempty, and the semver gate passes: each row is a pre-existing row with
its membership booleans or-ed with the profile-entry condition. -/
theorem updateProfiles_flags (db4 : Db) (rust : RustVersion)
    (profs : List (String × List String)) (c2 : CompRow)
    (hp : rust.profiles = some profs) (hne : profs ≠ [])
    (hsem : semverBase132 rust.version = some true)
    (hc2 : c2 ∈ (updateProfiles db4 rust).1.components) :
    ∃ orig ∈ db4.components,
      c2 = { orig with
        profile_complete := orig.profile_complete || profs.any (fun e =>
          e.1 == "complete" &&
            (orig.rust_version == rust.version && e.2.contains orig.name))
        profile_default := orig.profile_default || profs.any (fun e =>
          e.1 == "default" &&
            (orig.rust_version == rust.version && e.2.contains orig.name))
        profile_minimal := orig.profile_minimal || profs.any (fun e =>
          e.1 == "minimal" &&
            (orig.rust_version == rust.version && e.2.contains orig.name)) }
      := by
  have hempf : profs.isEmpty = false := by
    cases profs with
    | nil => exact absurd rfl hne
    | cons a l => rfl
  simp only [updateProfiles, hp, hempf, hsem, Bool.false_eq_true, if_false,
    if_true] at hc2
  rw [foldProfiles_components rust.version profs db4] at hc2
  rcases List.mem_map.mp hc2 with ⟨orig, horig, he⟩
  exact ⟨orig, horig, he.symm⟩

/-- A release below 1.32.0 carrying profile data, for the C6
counterexample. -/
def relC6 : RustVersion :=
  { version := "1.0.0", release_date := "2015-05-15"
    manifest_url := "https://dist/2015-05-15/channel-rust-1.0.0.toml"
    components := [⟨"rustc", "1.0.0", "1.0.0", none, [⟨"x86", "u", "h"⟩]⟩]
    profiles := some [("default", ["rustc"])] }

/-- C6 counterexample: release 1.0.0 carries profile data naming rustc in
the default profile and its insertion succeeds, yet the inserted component
row keeps profile_default = false — the semver guard skips the profile
update for versions older than 1.32.0. -/
theorem C6_counterexample :
    relC6.profiles = some [("default", ["rustc"])] ∧
    (insert_rust_version {} relC6).2 = true ∧
    (insert_rust_version {} relC6).1.components.map
      (fun c => c.profile_default) = [false] := by
  refine ⟨rfl, ?_, ?_⟩ <;> decide

/-- C6 (amended): the three profile-membership booleans are false on every
freshly inserted component row, and for a successfully inserted release
carrying nonempty profile data whose version passes the 1.32.0 semver gate,
each component row of that release ends with each membership boolean equal
to "some entry of that profile names this component"; for older versions
the update is skipped entirely (see the counterexample). -/
theorem C6_amended (dbX db : Db) (rust : RustVersion)
    (profs : List (String × List String)) (c1 c2 : CompRow)
    (hp : rust.profiles = some profs)
    (hne : profs ≠ [])
    (hsem : semverBase132 rust.version = some true)
    (hfresh : db.hasVersion rust.version = false)
    (hnocomp : ∀ c ∈ db.components, c.rust_version ≠ rust.version)
    (hok : (insert_rust_version db rust).2 = true)
    (hc1 : c1 ∈ (insertComps dbX rust.components).1.components)
    (hc2 : c2 ∈ (insert_rust_version db rust).1.components)
    (hc2v : c2.rust_version = rust.version) :
    (c1 ∈ dbX.components ∨
      (c1.profile_complete = false ∧ c1.profile_default = false ∧
       c1.profile_minimal = false)) ∧
    c2.profile_complete = profs.any
      (fun e => e.1 == "complete" && e.2.contains c2.name) ∧
    c2.profile_default = profs.any
      (fun e => e.1 == "default" && e.2.contains c2.name) ∧
    c2.profile_minimal = profs.any
      (fun e => e.1 == "minimal" && e.2.contains c2.name) := by
  refine ⟨insertComps_mem rust.components dbX c1 hc1, ?_⟩
  unfold insert_rust_version at hok hc2
  rw [hfresh] at hok hc2
  rw [if_neg (by decide)] at hok hc2
  cases hemp : rust.components.isEmpty with
  | true =>
    rw [hemp, if_pos rfl] at hok hc2
    rcases harts : insertArts (addVersionRow db rust) (artefactRows rust)
      with ⟨db4, ok4⟩
    rw [harts] at hok hc2
    cases ok4 with
    | false => exact Bool.noConfusion (show false = true from hok)
    | true =>
      have hcomps4 : db4.components = db.components := by
        have h1 := (insertArts_fields (artefactRows rust)
          (addVersionRow db rust)).2.1
        rw [harts] at h1
        exact h1
      rcases updateProfiles_flags db4 rust profs c2 hp hne hsem hc2
        with ⟨orig, horig, he⟩
      rw [hcomps4] at horig
      have hrv : orig.rust_version = rust.version := by
        rw [he] at hc2v
        exact hc2v
      exact absurd hrv (hnocomp orig horig)
  | false =>
    rw [hemp, if_neg (by decide)] at hok hc2
    rcases hcomp : insertComps (addVersionRow db rust) rust.components
      with ⟨db2, ok2⟩
    rw [hcomp] at hok hc2
    cases ok2 with
    | false => exact Bool.noConfusion (show false = true from hok)
    | true =>
      have hok2 : (match collectTargetRows db2 rust.version rust.components
          with
          | none => (db2, false)
          | some trows =>
            match insertArts (addTargetRows db2 trows) (artefactRows rust)
            with
            | (db4, false) => (db4, false)
            | (db4, true) => updateProfiles db4 rust).2 = true := hok
      have hc2b : c2 ∈
          (match collectTargetRows db2 rust.version rust.components with
          | none => (db2, false)
          | some trows =>
            match insertArts (addTargetRows db2 trows) (artefactRows rust)
            with
            | (db4, false) => (db4, false)
            | (db4, true) => updateProfiles db4 rust).1.components := hc2
      rcases hct : collectTargetRows db2 rust.version rust.components
        with _ | trows
      · rw [hct] at hok2
        exact Bool.noConfusion (show false = true from hok2)
      · rw [hct] at hok2 hc2b
        have hok3 : (match insertArts (addTargetRows db2 trows)
            (artefactRows rust) with
            | (db4, false) => (db4, false)
            | (db4, true) => updateProfiles db4 rust).2 = true := hok2
        have hc2c : c2 ∈ (match insertArts (addTargetRows db2 trows)
            (artefactRows rust) with
            | (db4, false) => (db4, false)
            | (db4, true) => updateProfiles db4 rust).1.components := hc2b
        rcases harts : insertArts (addTargetRows db2 trows)
          (artefactRows rust) with ⟨db4, ok4⟩
        rw [harts] at hok3 hc2c
        cases ok4 with
        | false => exact Bool.noConfusion (show false = true from hok3)
        | true =>
          have hcomps4 : db4.components = db2.components := by
            have h1 := (insertArts_fields (artefactRows rust)
              (addTargetRows db2 trows)).2.1
            rw [harts] at h1
            exact h1
          rcases updateProfiles_flags db4 rust profs c2 hp hne hsem hc2c
            with ⟨orig, horig, he⟩
          rw [hcomps4] at horig
          have hrv : orig.rust_version = rust.version := by
            rw [he] at hc2v
            exact hc2v
          have horigC : orig ∈
              (insertComps (addVersionRow db rust)
                rust.components).1.components := by
            rw [hcomp]
            exact horig
          have horig2 := insertComps_mem rust.components
            (addVersionRow db rust) orig horigC
          rcases horig2 with h3 | h3
          · exact absurd hrv (hnocomp orig h3)
          · have hb : (orig.rust_version == rust.version) = true :=
              beq_iff_eq.mpr hrv
            have hname : c2.name = orig.name := by rw [he]
            have hpc : c2.profile_complete = (orig.profile_complete ||
                profs.any (fun e => e.1 == "complete" &&
                  (orig.rust_version == rust.version &&
                    e.2.contains orig.name))) := by rw [he]
            have hpd : c2.profile_default = (orig.profile_default ||
                profs.any (fun e => e.1 == "default" &&
                  (orig.rust_version == rust.version &&
                    e.2.contains orig.name))) := by rw [he]
            have hpm : c2.profile_minimal = (orig.profile_minimal ||
                profs.any (fun e => e.1 == "minimal" &&
                  (orig.rust_version == rust.version &&
                    e.2.contains orig.name))) := by rw [he]
            refine ⟨?_, ?_, ?_⟩
            · rw [hpc, h3.1, Bool.false_or, hname]
              simp only [hb, Bool.true_and]
            · rw [hpd, h3.2.1, Bool.false_or, hname]
              simp only [hb, Bool.true_and]
            · rw [hpm, h3.2.2, Bool.false_or, hname]
              simp only [hb, Bool.true_and]

/-- A release at 1.50.0 carrying profile data, for the C6 witness. -/
def relC6W : RustVersion :=
  { version := "1.50.0", release_date := "2021-02-11"
    manifest_url := "https://dist/2021-02-11/channel-rust-1.50.0.toml"
    components := [⟨"rustc", "1.50.0", "1.50.0", none, [⟨"x86", "u", "h"⟩]⟩]
    profiles := some [("default", ["rustc"])] }

/-- The component row of relC6W as first inserted (flags false). -/
def compC6init : CompRow :=
  ⟨0, "rustc", "1.50.0", "1.50.0", none, false, false, false⟩

/-- The component row of relC6W after the profile update. -/
def compC6final : CompRow :=
  ⟨0, "rustc", "1.50.0", "1.50.0", none, false, true, false⟩

/-- C6 witness: the amended theorem applied to release 1.50.0 with a default
profile naming rustc, inserted into an empty store. -/
theorem C6_witness :
    (compC6init ∈ (addVersionRow {} relC6W).components ∨
      (compC6init.profile_complete = false ∧
       compC6init.profile_default = false ∧
       compC6init.profile_minimal = false)) ∧
    compC6final.profile_complete = [("default", ["rustc"])].any
      (fun e => e.1 == "complete" && e.2.contains compC6final.name) ∧
    compC6final.profile_default = [("default", ["rustc"])].any
      (fun e => e.1 == "default" && e.2.contains compC6final.name) ∧
    compC6final.profile_minimal = [("default", ["rustc"])].any
      (fun e => e.1 == "minimal" && e.2.contains compC6final.name) :=
  C6_amended (addVersionRow {} relC6W) {} relC6W [("default", ["rustc"])]
    compC6init compC6final
    rfl (by decide) (by decide) (by decide) (by decide) (by decide)
    (by decide) (by decide) (by decide)
